import Mathlib

/-! # glmark2: the benchmark runner of `src/main.cpp`

A shallow embedding of `should_keep_running`, `list_scenes` and the benchmark
loop of `main`, together with the properties of the orchestration engine.

The collaborators (`Scene`, `Benchmark`, the screen, SDL) are objects whose
code lives elsewhere; they are embedded as records of methods acting on an
explicit world state, and every call `main` makes on them is logged. The SDL
constants and the arithmetic of the type that `average_fps()` returns are
parameters.
-/

namespace Glmark2

/-! # Definitions -/

/-! ## SDL events and `should_keep_running` -/

/-- The three constants of the SDL headers that `should_keep_running` compares
against. Their numeric values are fixed by the SDL version in use, so they are
taken as a parameter. -/
structure SDLConsts where
  SDL_QUIT : Nat
  SDL_KEYDOWN : Nat
  SDLK_ESCAPE : Nat
  deriving Repr, DecidableEq

/-- The values of SDL 1.2 (`SDL_events.h`, `SDL_keysym.h`), used for evaluation. -/
def sdl12 : SDLConsts := ⟨12, 2, 27⟩

/-- The fields of an `SDL_Event` that the program reads: `event.type` and
`event.key.keysym.sym`. -/
structure SDL_Event where
  type : Nat
  sym : Nat
  deriving Repr, DecidableEq

/-- The body of the `switch` of `should_keep_running` (main.cpp:49-58): the new
value of `running` after one event. -/
def handle_event (K : SDLConsts) (running : Bool) (event : SDL_Event) : Bool :=
  if event.type = K.SDL_QUIT then false
  else if event.type = K.SDL_KEYDOWN then
    (if event.sym = K.SDLK_ESCAPE then false else running)
  else running

/-- The loop `while(SDL_PollEvent(&event))` (main.cpp:47-59) over the queue of
pending events: each successful poll removes the head of the queue; the loop
ends when the queue is empty. Returns `running` and the queue left behind. -/
def poll_loop (K : SDLConsts) : Bool → List SDL_Event → Bool × List SDL_Event
  | running, [] => (running, [])
  | running, event :: queue => poll_loop K (handle_event K running event) queue

/-- The function `should_keep_running` (main.cpp:42-62), on the queue of pending events. -/
def should_keep_running (K : SDLConsts) (queue : List SDL_Event) : Bool × List SDL_Event :=
  poll_loop K true queue

/-- An event that asks for termination: a quit request or a key-down of Escape. -/
def SDL_Event.terminates (K : SDLConsts) (e : SDL_Event) : Prop :=
  e.type = K.SDL_QUIT ∨ (e.type = K.SDL_KEYDOWN ∧ e.sym = K.SDLK_ESCAPE)

instance (K : SDLConsts) (e : SDL_Event) : Decidable (e.terminates K) := by
  unfold SDL_Event.terminates; infer_instance

/-! ## The collaborators of `main` -/

/-- Modelled from the spec: the values that `Scene::average_fps()` returns (`scene.h`
is not among the sources; the spec gives `average_fps() -> number`). A frame rate is a
non-negative number; the values of its C++ type are rationals. -/
abbrev FPS := NNRat

/-- The arithmetic of the C++ type that `Scene::average_fps()` returns. The type is
declared in `scene.h`, so it is a parameter: `round` sends an exact result to the value
of the type that a conversion from `unsigned` or an addition in the type delivers. For
an integer type it leaves integers as they are; for a floating-point type it rounds to
the nearest value of the format. -/
structure NumberType where
  round : FPS → FPS

/-- Rounding to nearest, ties to even, to a binary floating-point format with `p`
significant bits (IEEE 754: `p = 24` for `float`, `p = 53` for `double`), for results
inside the exponent range of the format. `u` is the spacing of the format at `x`. -/
def round_fp (p : Nat) (x : FPS) : FPS :=
  if x = 0 then 0
  else
    let u : FPS := 2 ^ (Int.log 2 x - ((p : Int) - 1))
    let n : Nat := ⌊x / u⌋₊
    if 2 * (x / u) < 2 * (n : FPS) + 1 then n * u
    else if 2 * (n : FPS) + 1 < 2 * (x / u) then (n + 1) * u
    else if n % 2 = 0 then n * u else (n + 1) * u

/-- The arithmetic of `double`. -/
def binary64 : NumberType := ⟨round_fp 53⟩

/-- The process state that the collaborators act on: the queue of pending SDL events
and the state `σ` of everything else (scenes, benchmarks, screen). Every collaborator
method receives the whole world, so that a call may also make new events pending. -/
structure World (σ : Type) where
  events : List SDL_Event
  st : σ
  deriving Repr, DecidableEq

/-- One entry of `Scene::options()`: the fields that `list_scenes` prints. -/
structure SceneOption where
  name : String
  description : String
  default_value : String
  deriving Repr, DecidableEq

/-- A `std::map<std::string, V>`, as the list of its entries in iteration order. -/
abbrev StdMap (V : Type) := List (String × V)

/-- Iteration of a `std::map` visits the keys in strictly ascending order. -/
def StdMap.ordered {V : Type} (m : StdMap V) : Prop :=
  (m.map Prod.fst).Pairwise (fun a b => a < b)

instance {V : Type} (m : StdMap V) : Decidable m.ordered := by
  unfold StdMap.ordered; infer_instance

/-- Modelled from the spec: the interface of class `Scene` (`scene.h` is not among the
sources), with the members that `main.cpp` calls. The queries are read-only; `draw` and
`update` change the world. -/
structure Scene (σ : Type) where
  name : String
  options : StdMap SceneOption
  info_string : World σ → String
  is_running : World σ → Bool
  draw : World σ → World σ
  update : World σ → World σ
  average_fps : World σ → FPS

/-- Modelled from the spec: the interface of class `Benchmark` (`benchmark.h` is not
among the sources). `setup_scene` returns a `Scene &`, so a failure (scene name not
registered: a fatal configuration error surfaced to the caller) cannot be a return
value: it leaves the call abnormally, which is `none` here. `teardown_scene` always
succeeds. -/
structure Benchmark (σ : Type) where
  setup_scene : World σ → Option (Scene σ × World σ)
  teardown_scene : World σ → World σ

/-- The two members of the screen object that the frame loop calls. -/
structure Screen (σ : Type) where
  clear : World σ → World σ
  update : World σ → World σ

/-- The log of what `main` does with its collaborators, one entry per call, in program
order, with the value returned where there is one. A benchmark is identified by its
position in the vector. `print_fps v` and `add_score v` are the two calls of
`scene.average_fps()` (main.cpp:193-194) that returned `v`: the first value is
printed, the second is added to `score`. `info_string s` is the call of
`scene.info_string()` whose result `s` is written to `std::cout`. -/
inductive Call where
  | setup_scene (i : Nat) (ok : Bool)
  | info_string (s : String)
  | is_running (r : Bool)
  | should_keep_running (r : Bool)
  | screen_clear
  | scene_draw
  | scene_update
  | screen_update
  | print_fps (v : FPS)
  | add_score (v : FPS)
  | teardown_scene (i : Nat)
  deriving DecidableEq

/-! ## The benchmark loop of `main` -/

/-- The call `should_keep_running()` in the world: it drains the event queue. -/
def poll_events {σ : Type} (K : SDLConsts) (w : World σ) : Bool × World σ :=
  ((should_keep_running K w.events).1, { w with events := (should_keep_running K w.events).2 })

/-- The body of the frame loop (main.cpp:185-190). -/
def draw_frame {σ : Type} (scene : Scene σ) (screen : Screen σ) (w : World σ) : World σ :=
  let w := screen.clear w
  let w := scene.draw w
  let w := scene.update w
  screen.update w

/-- The calls of one full iteration of the frame loop: the two halves of the loop
condition, then the body. -/
def frame_cycle : List Call :=
  [.is_running true, .should_keep_running true,
   .screen_clear, .scene_draw, .scene_update, .screen_update]

/-- The frame loop (main.cpp:182-191):
`while (scene.is_running() && (keep_running = should_keep_running())) { ... }`,
entered with `keep_running == true`. The loop has no bound of its own, so the
embedding takes the largest number of condition checks as fuel. Returns the final
`keep_running`, the world and the calls made. -/
def frame_loop {σ : Type} (K : SDLConsts) (scene : Scene σ) (screen : Screen σ) :
    Nat → World σ → Option (Bool × World σ × List Call)
  | 0, _ => none
  | fuel + 1, w =>
    if scene.is_running w then
      if (poll_events K w).1 then
        match frame_loop K scene screen fuel (draw_frame scene screen (poll_events K w).2) with
        | none => none
        | some (keep_running, w1, calls) => some (keep_running, w1, frame_cycle ++ calls)
      else
        some (false, (poll_events K w).2, [.is_running true, .should_keep_running false])
    else
      some (true, w, [.is_running false])

/-- Conversion of a number to `unsigned` (32 bits): the fractional part is dropped. -/
def to_unsigned (x : FPS) : Nat := ⌊x⌋₊ % 2 ^ 32

/-- The statement `score += scene.average_fps()` (main.cpp:194), with `T` the type of
`average_fps()`: by the usual arithmetic conversions `score` is converted to `T`, the
sum is formed in `T`, and the result is converted back to `unsigned`. -/
def add_to_score (T : NumberType) (score : Nat) (fps : FPS) : Nat :=
  to_unsigned (T.round (T.round (score : FPS) + fps))

/-- How a run of the benchmark loop ended: the vector was exhausted, the loop was left
by `break` after a cancellation, or `setup_scene` failed. -/
inductive Status where
  | finished
  | cancelled
  | aborted
  deriving Repr, DecidableEq

/-- The outcome of a run: final world, final `score`, the calls made, and how it ended. -/
structure Run (σ : Type) where
  world : World σ
  score : Nat
  calls : List Call
  status : Status

/-- The loop over the benchmarks (main.cpp:173-200), from the benchmark at position `i`
with the current `score`; `T` is the type of `average_fps()`. -/
def run_benchmarks {σ : Type} (K : SDLConsts) (T : NumberType) (screen : Screen σ)
    (fuel : Nat) :
    Nat → List (Benchmark σ) → World σ → Nat → Option (Run σ)
  | _, [], w, score => some ⟨w, score, [], .finished⟩
  | i, bench :: rest, w, score =>
    match bench.setup_scene w with
    | none => some ⟨w, score, [.setup_scene i false], .aborted⟩
    | some (scene, w1) =>
      match frame_loop K scene screen fuel w1 with
      | none => none
      | some (keep_running, w2, calls) =>
        let fps := scene.average_fps w2
        let score1 := add_to_score T score fps
        let w3 := bench.teardown_scene w2
        let block := [Call.setup_scene i true, Call.info_string (scene.info_string w1)]
          ++ calls ++ [Call.print_fps fps, Call.add_score fps, Call.teardown_scene i]
        if keep_running then
          match run_benchmarks K T screen fuel (i + 1) rest w3 score1 with
          | none => none
          | some r => some ⟨r.world, r.score, block ++ r.calls, r.status⟩
        else
          some ⟨w3, score1, block, .cancelled⟩

/-- The part of `main` that runs the benchmarks (main.cpp:129 and 173-204): `score`
starts at 0; the final `score` is printed unless the run was aborted. -/
def main {σ : Type} (K : SDLConsts) (T : NumberType) (screen : Screen σ) (fuel : Nat)
    (benchmarks : List (Benchmark σ)) (w : World σ) : Option (Run σ) :=
  run_benchmarks K T screen fuel 0 benchmarks w 0

/-- The world at the next check of the loop condition, when the loop goes on. -/
def next_frame {σ : Type} (K : SDLConsts) (scene : Scene σ) (screen : Screen σ)
    (w : World σ) : World σ :=
  draw_frame scene screen (poll_events K w).2

/-! ## The call log of a run -/

/-- The calls of `n` full iterations of the frame loop. -/
def frame_cycles : Nat → List Call
  | 0 => []
  | n + 1 => frame_cycle ++ frame_cycles n

/-- The calls of the check of the loop condition that ends the loop: either the scene
is no longer running (and the event source is not polled), or it is and the poll
reports termination. -/
def loop_exit (cancelled : Bool) : List Call :=
  if cancelled then [.is_running true, .should_keep_running false] else [.is_running false]

/-- The calls that `main` makes for the benchmark at position `i`, given the result of
its frame loop and the frame rate read afterwards. -/
def block_calls (i : Nat) (info : String) (loop : List Call) (fps : FPS) : List Call :=
  [Call.setup_scene i true, Call.info_string info] ++ loop ++
    [Call.print_fps fps, Call.add_score fps, Call.teardown_scene i]

/-- Prefixing the calls of an earlier part of the run to a later part. -/
def Run.after {σ : Type} (calls : List Call) (r : Run σ) : Run σ :=
  ⟨r.world, r.score, calls ++ r.calls, r.status⟩

/-- What is observed of one benchmark that was set up: the info string emitted, the
number of frames drawn, and the frame rate read after the loop. -/
structure BenchLog where
  info : String
  frames : Nat
  fps : FPS

/-- The calls of one benchmark, in program order: setup, info string, the frames, the
check that leaves the loop, the two reads of the frame rate, teardown. -/
def benchmark_calls (i : Nat) (cancelled : Bool) (b : BenchLog) : List Call :=
  block_calls i b.info (frame_cycles b.frames ++ loop_exit cancelled) b.fps

/-- The calls of consecutive benchmarks that were not cancelled, from position `i`. -/
def run_calls : Nat → List BenchLog → List Call
  | _, [] => []
  | i, b :: bs => benchmark_calls i false b ++ run_calls (i + 1) bs

/-- The score after adding the frame rates of the given benchmarks in order. -/
def score_after (T : NumberType) (score : Nat) (logs : List BenchLog) : Nat :=
  logs.foldl (fun s b => add_to_score T s b.fps) score

/-- The shape of a run from position `i` and score `s` over `total` benchmarks, of which
those in `done` ran their loop to the end. -/
def RunShape (T : NumberType) (i s total : Nat) (status : Status) (calls : List Call) (score : Nat)
    (done : List BenchLog) : Prop :=
  (status = .finished ∧ done.length = total ∧ calls = run_calls i done ∧
    score = score_after T s done) ∨
  (status = .cancelled ∧ done.length < total ∧
    ∃ b, calls = run_calls i done ++ benchmark_calls (i + done.length) true b ∧
      score = add_to_score T (score_after T s done) b.fps) ∨
  (status = .aborted ∧ done.length < total ∧
    calls = run_calls i done ++ [Call.setup_scene (i + done.length) false] ∧
    score = score_after T s done)

/-- The result of a `should_keep_running` entry of the log. -/
def Call.poll_result : Call → Option Bool
  | .should_keep_running r => some r
  | _ => none

/-- The results of the polls of a log, in order. -/
def polls (calls : List Call) : List Bool := calls.filterMap Call.poll_result

/-- The calls that the frame loop makes: the loop condition and the loop body. -/
def Call.in_loop : Call → Bool
  | .is_running _ => true
  | .should_keep_running _ => true
  | .screen_clear => true
  | .scene_draw => true
  | .scene_update => true
  | .screen_update => true
  | _ => false

/-- The calls that draw or present a frame. -/
def Call.is_frame : Call → Bool
  | .screen_clear => true
  | .scene_draw => true
  | .scene_update => true
  | .screen_update => true
  | _ => false

/-- Any call of `setup_scene`, successful or not. -/
def Call.is_setup : Call → Bool
  | .setup_scene _ _ => true
  | _ => false

/-- A call of `setup_scene` that returned a scene. -/
def Call.is_setup_ok : Call → Bool
  | .setup_scene _ ok => ok
  | _ => false

/-- Any call of `teardown_scene`. -/
def Call.is_teardown : Call → Bool
  | .teardown_scene _ => true
  | _ => false

/-- The frame rate of a `print_fps` entry of the log. -/
def Call.reported_fps : Call → Option FPS
  | .print_fps v => some v
  | _ => none

/-- The frame rates printed during a run, one per benchmark whose loop ended, in order. -/
def fps_reports (calls : List Call) : List FPS := calls.filterMap Call.reported_fps

/-- No addition of the running score and the next frame rate is rounded across an
integer: at each step the score is a value of `T`, and the sum that `T` delivers has
the same integer part as the exact sum. The score then moves on by the integer part
of the frame rate. -/
def sums_keep_integer_part (T : NumberType) : Nat → List FPS → Prop
  | _, [] => True
  | score, fps :: rest =>
    T.round (score : FPS) = score ∧
      ⌊T.round ((score : FPS) + fps)⌋₊ = ⌊(score : FPS) + fps⌋₊ ∧
      sums_keep_integer_part T (score + ⌊fps⌋₊) rest

/-- The scenes that a run binds when every frame loop ends with `keep_running` true, one
per benchmark in list order, each with the world in which its frame loop ended. -/
def Trail {σ : Type} (K : SDLConsts) (screen : Screen σ) (fuel : Nat) :
    List (Benchmark σ) → World σ → List (Scene σ × World σ) → Prop
  | [], _, [] => True
  | [], _, _ :: _ => False
  | _ :: _, _, [] => False
  | bench :: rest, w, p :: trail =>
    ∃ w1 calls, bench.setup_scene w = some (p.1, w1) ∧
      frame_loop K p.1 screen fuel w1 = some (true, p.2, calls) ∧
      Trail K screen fuel rest (bench.teardown_scene p.2) trail

/-- What `main` does with a benchmark between its setup and its teardown: the info
string, the frame loop, and the two reads of the frame rate. -/
def inner_calls (cancelled : Bool) (b : BenchLog) : List Call :=
  Call.info_string b.info :: (frame_cycles b.frames ++ loop_exit cancelled) ++
    [Call.print_fps b.fps, Call.add_score b.fps]

/-- A log made of brackets: for each pair `(i, inner)` a successful `setup_scene` of
benchmark `i`, the calls `inner`, and `teardown_scene` of benchmark `i`. -/
def brackets : List (Nat × List Call) → List Call
  | [] => []
  | b :: bs => Call.setup_scene b.1 true :: b.2 ++ Call.teardown_scene b.1 :: brackets bs

/-- The brackets of consecutive benchmarks that were not cancelled, from position `i`. -/
def to_brackets : Nat → List BenchLog → List (Nat × List Call)
  | _, [] => []
  | i, b :: bs => (i, inner_calls false b) :: to_brackets (i + 1) bs

/-- The calls between a setup and its teardown: no setup and no teardown among them;
they are the info string, calls of the frame loop, and the two reads of the frame rate. -/
def is_inner (inner : List Call) : Prop :=
  (∀ c ∈ inner, c.is_setup = false ∧ c.is_teardown = false) ∧
  ∃ info loop v, inner = Call.info_string info :: loop ++ [Call.print_fps v, Call.add_score v] ∧
    ∀ c ∈ loop, c.in_loop = true

/-! ## `list_scenes` -/

/-- One `Log::info` call of `list_scenes`, with the arguments of its format string:
`"[Scene] %s\n"` for a scene, and
`"  [Option] %s\n    Description  : %s\n    Default Value: %s\n"` for an option. -/
inductive LogEntry where
  | scene (name : String)
  | option (name : String) (description : String) (default_value : String)
  deriving Repr, DecidableEq

/-- The text that a log entry stands for. -/
def LogEntry.text : LogEntry → String
  | .scene name => "[Scene] " ++ name ++ "\n"
  | .option name description default_value =>
    "  [Option] " ++ name ++ "\n    Description  : " ++ description ++
      "\n    Default Value: " ++ default_value ++ "\n"

/-- The inner loop of `list_scenes` (main.cpp:112-123), over the entries of
`scene->options()` in iteration order. -/
def list_options : StdMap SceneOption → List LogEntry
  | [] => []
  | opt_iter :: rest =>
    LogEntry.option opt_iter.2.name opt_iter.2.description opt_iter.2.default_value ::
      list_options rest

/-- The outer loop of `list_scenes` (main.cpp:103-124), over the entries of the
registry in iteration order. -/
def list_scenes_loop {σ : Type} : StdMap (Scene σ) → List LogEntry
  | [] => []
  | scene_iter :: rest =>
    LogEntry.scene scene_iter.2.name ::
      (list_options scene_iter.2.options ++ list_scenes_loop rest)

/-- The function `list_scenes` (main.cpp:98-125), given the registry that
`Benchmark::scenes()` returns; its effect is the sequence of `Log::info` calls. -/
def list_scenes {σ : Type} (scenes : StdMap (Scene σ)) : List LogEntry :=
  list_scenes_loop scenes

/-- The report of one scene: its name, then its declared options in the order of
the option map, each with name, description and default value. -/
def scene_report {σ : Type} (scene : Scene σ) : List LogEntry :=
  LogEntry.scene scene.name ::
    scene.options.map (fun o => LogEntry.option o.2.name o.2.description o.2.default_value)

/-- The scene names of a listing, in order. -/
def listed_scenes (log : List LogEntry) : List String :=
  log.filterMap (fun e => match e with
    | .scene name => some name
    | .option _ _ _ => none)

/-! ## A stub environment, for evaluation -/

/-- The stub world counts the `update()` calls since the last setup. -/
abbrev StubWorld := World Nat

/-- A scene that runs for `n` updates and then reports the frame rate `fps`. -/
def stub_scene (n : Nat) (fps : FPS) : Scene Nat where
  name := "stub"
  options := []
  info_string := fun _ => "stub"
  is_running := fun w => decide (w.st < n)
  draw := fun w => w
  update := fun w => { w with st := w.st + 1 }
  average_fps := fun _ => fps

/-- A benchmark bound to `stub_scene n fps`. -/
def stub_benchmark (n : Nat) (fps : FPS) : Benchmark Nat where
  setup_scene := fun w => some (stub_scene n fps, { w with st := 0 })
  teardown_scene := fun w => w

/-- A benchmark whose scene name is not registered. -/
def broken_benchmark : Benchmark Nat where
  setup_scene := fun _ => none
  teardown_scene := fun w => w

/-- A screen that does nothing. -/
def stub_screen : Screen Nat where
  clear := fun w => w
  update := fun w => w

/-- A screen during whose `update()` the user presses Escape once the second frame of a
benchmark is presented. -/
def escape_screen : Screen Nat where
  clear := fun w => w
  update := fun w => if w.st = 2 then { w with events := w.events ++ [⟨2, 27⟩] } else w

/-- The run of the single stub benchmark `stub_benchmark 1 (239 / 4)`. -/
def stub_run_one : Run Nat :=
  ⟨⟨[], 1⟩, add_to_score binary64 0 (239 / 4),
    block_calls 0 "stub" (frame_cycles 1 ++ loop_exit false) (239 / 4), .finished⟩

/-- The run of three stub benchmarks that report 59.75, 60.25 and 30.5. -/
def stub_run_three : Run Nat :=
  ⟨⟨[], 2⟩,
    add_to_score binary64 (add_to_score binary64 (add_to_score binary64 0 (239 / 4)) (241 / 4))
      (61 / 2),
    block_calls 0 "stub" (frame_cycles 2 ++ loop_exit false) (239 / 4) ++
    block_calls 1 "stub" (frame_cycles 1 ++ loop_exit false) (241 / 4) ++
    block_calls 2 "stub" (frame_cycles 2 ++ loop_exit false) (61 / 2), .finished⟩

/-- The run, with `double` arithmetic, of three stub benchmarks that report the values
of `double` nearest to 59.7, 60.2 and 30.9. -/
def spec_example_run : Run Nat :=
  ⟨⟨[], 2⟩,
    add_to_score binary64
      (add_to_score binary64 (add_to_score binary64 0 (4201014027406541 / 70368744177664))
        (4236198399495373 / 70368744177664))
      (4348788390179635 / 140737488355328),
    block_calls 0 "stub" (frame_cycles 2 ++ loop_exit false) (4201014027406541 / 70368744177664) ++
    block_calls 1 "stub" (frame_cycles 1 ++ loop_exit false) (4236198399495373 / 70368744177664) ++
    block_calls 2 "stub" (frame_cycles 2 ++ loop_exit false) (4348788390179635 / 140737488355328),
    .finished⟩

/-- The run, with `double` arithmetic, of two stub benchmarks that report 100 and
60 - 2^-47 (both values of `double`). -/
def rounded_run : Run Nat :=
  ⟨⟨[], 1⟩,
    add_to_score binary64 (add_to_score binary64 0 100) (8444249301319679 / 140737488355328),
    block_calls 0 "stub" (frame_cycles 1 ++ loop_exit false) 100 ++
    block_calls 1 "stub" (frame_cycles 1 ++ loop_exit false)
      (8444249301319679 / 140737488355328), .finished⟩

/-- A registry with two scenes, in the manner of the scenes that `main` registers. -/
def stub_registry : StdMap (Scene Nat) :=
  [("build", { stub_scene 1 1 with
      name := "build"
      options := [("use-vbo", ⟨"use-vbo", "Whether to use VBOs for rendering", "true"⟩)] }),
   ("texture", { stub_scene 1 1 with
      name := "texture"
      options := [("texture-filter", ⟨"texture-filter", "[nearest, linear, mipmap]", "nearest"⟩)] })]

/-! # Theorems -/

/-! ## SDL events and `should_keep_running` -/

theorem handle_event_eq (K : SDLConsts) (running : Bool) (e : SDL_Event) :
    handle_event K running e = (running && !decide (e.terminates K)) := by
  unfold handle_event SDL_Event.terminates
  by_cases h1 : e.type = K.SDL_QUIT
  · simp [h1]
  · by_cases h2 : e.type = K.SDL_KEYDOWN
    · have h1' : ¬ K.SDL_KEYDOWN = K.SDL_QUIT := fun h => h1 (h2.trans h)
      by_cases h3 : e.sym = K.SDLK_ESCAPE <;> simp [h1', h2, h3]
    · simp [h1, h2]

theorem poll_loop_snd (K : SDLConsts) (running : Bool) (queue : List SDL_Event) :
    (poll_loop K running queue).2 = [] := by
  induction queue generalizing running with
  | nil => rfl
  | cons e q ih => simpa [poll_loop] using ih _

theorem poll_loop_fst (K : SDLConsts) (running : Bool) (queue : List SDL_Event) :
    (poll_loop K running queue).1 = false ↔
      running = false ∨ ∃ e ∈ queue, e.terminates K := by
  induction queue generalizing running with
  | nil => simp [poll_loop]
  | cons e q ih =>
    simp only [poll_loop, ih, handle_event_eq, List.mem_cons, exists_eq_or_imp,
      Bool.and_eq_false_imp]
    by_cases ht : e.terminates K <;> cases running <;> simp [ht]

/-- C6: `should_keep_running` empties the queue of pending events, whatever it holds,
and returns false exactly when one of the events is a quit request or a key-down of
Escape; on an empty queue it returns true. -/
theorem should_keep_running_spec (K : SDLConsts) (queue : List SDL_Event) :
    (should_keep_running K queue).2 = [] ∧
    ((should_keep_running K queue).1 = false ↔
      ∃ e ∈ queue, e.type = K.SDL_QUIT ∨
        (e.type = K.SDL_KEYDOWN ∧ e.sym = K.SDLK_ESCAPE)) ∧
    ((should_keep_running K queue).1 = true ↔
      ∀ e ∈ queue, e.type ≠ K.SDL_QUIT ∧
        ¬ (e.type = K.SDL_KEYDOWN ∧ e.sym = K.SDLK_ESCAPE)) ∧
    should_keep_running K [] = (true, []) := by
  have h := poll_loop_fst K true queue
  simp only [Bool.true_eq_false, false_or, SDL_Event.terminates] at h
  refine ⟨poll_loop_snd K true queue, h, ?_, rfl⟩
  rw [← Bool.not_eq_false, should_keep_running, h]
  simp only [not_exists, not_or, not_and, ne_eq]

/-! ## The frame loop -/

theorem frame_loop_finish {σ : Type} (K : SDLConsts) (scene : Scene σ) (screen : Screen σ)
    (n : Nat) : ∀ (fuel : Nat) (w : World σ),
    (∀ j < n, scene.is_running ((next_frame K scene screen)^[j] w) = true) →
    (∀ j < n, (poll_events K ((next_frame K scene screen)^[j] w)).1 = true) →
    scene.is_running ((next_frame K scene screen)^[n] w) = false → n < fuel →
    frame_loop K scene screen fuel w =
      some (true, (next_frame K scene screen)^[n] w, frame_cycles n ++ loop_exit false) := by
  induction n with
  | zero =>
    intro fuel w _ _ hstop hfuel
    cases fuel with
    | zero => omega
    | succ f =>
      simp only [Function.iterate_zero, id] at hstop
      simp [frame_loop, hstop, frame_cycles, loop_exit]
  | succ n ih =>
    intro fuel w hrun hkeep hstop hfuel
    cases fuel with
    | zero => omega
    | succ f =>
      have h0 := hrun 0 (by omega)
      have k0 := hkeep 0 (by omega)
      simp only [Function.iterate_zero, id] at h0 k0
      have hrec := ih f (next_frame K scene screen w)
        (fun j hj => by simpa [Function.iterate_succ_apply] using hrun (j + 1) (by omega))
        (fun j hj => by simpa [Function.iterate_succ_apply] using hkeep (j + 1) (by omega))
        (by simpa [Function.iterate_succ_apply] using hstop) (by omega)
      rw [next_frame] at hrec
      simp only [frame_loop, h0, k0, if_true, hrec, frame_cycles, List.append_assoc,
        Function.iterate_succ_apply, next_frame]

theorem frame_loop_cancel {σ : Type} (K : SDLConsts) (scene : Scene σ) (screen : Screen σ)
    (n : Nat) : ∀ (fuel : Nat) (w : World σ),
    (∀ j < n, scene.is_running ((next_frame K scene screen)^[j] w) = true) →
    (∀ j < n, (poll_events K ((next_frame K scene screen)^[j] w)).1 = true) →
    scene.is_running ((next_frame K scene screen)^[n] w) = true →
    (poll_events K ((next_frame K scene screen)^[n] w)).1 = false → n < fuel →
    frame_loop K scene screen fuel w =
      some (false, (poll_events K ((next_frame K scene screen)^[n] w)).2,
        frame_cycles n ++ loop_exit true) := by
  induction n with
  | zero =>
    intro fuel w _ _ hlast hstop hfuel
    cases fuel with
    | zero => omega
    | succ f =>
      simp only [Function.iterate_zero, id] at hstop hlast
      simp [frame_loop, hstop, hlast, frame_cycles, loop_exit]
  | succ n ih =>
    intro fuel w hrun hkeep hlast hstop hfuel
    cases fuel with
    | zero => omega
    | succ f =>
      have h0 := hrun 0 (by omega)
      have k0 := hkeep 0 (by omega)
      simp only [Function.iterate_zero, id] at h0 k0
      have hrec := ih f (next_frame K scene screen w)
        (fun j hj => by simpa [Function.iterate_succ_apply] using hrun (j + 1) (by omega))
        (fun j hj => by simpa [Function.iterate_succ_apply] using hkeep (j + 1) (by omega))
        (by simpa [Function.iterate_succ_apply] using hlast)
        (by simpa [Function.iterate_succ_apply] using hstop) (by omega)
      rw [next_frame] at hrec
      simp only [frame_loop, h0, k0, if_true, hrec, frame_cycles, List.append_assoc,
        Function.iterate_succ_apply, next_frame]

/-- Every result of the frame loop is of one of two kinds: after `n` full iterations
either the scene stops running, or the poll reports termination. -/
theorem frame_loop_some {σ : Type} (K : SDLConsts) (scene : Scene σ) (screen : Screen σ) :
    ∀ (fuel : Nat) (w : World σ) (keep : Bool) (w2 : World σ) (calls : List Call),
    frame_loop K scene screen fuel w = some (keep, w2, calls) →
    ∃ n, n < fuel ∧
      (∀ j < n, scene.is_running ((next_frame K scene screen)^[j] w) = true) ∧
      (∀ j < n, (poll_events K ((next_frame K scene screen)^[j] w)).1 = true) ∧
      calls = frame_cycles n ++ loop_exit (!keep) ∧
      ((keep = true ∧ scene.is_running ((next_frame K scene screen)^[n] w) = false ∧
          w2 = (next_frame K scene screen)^[n] w) ∨
       (keep = false ∧ scene.is_running ((next_frame K scene screen)^[n] w) = true ∧
          (poll_events K ((next_frame K scene screen)^[n] w)).1 = false ∧
          w2 = (poll_events K ((next_frame K scene screen)^[n] w)).2)) := by
  intro fuel
  induction fuel with
  | zero => intro w keep w2 calls h; simp [frame_loop] at h
  | succ f ih =>
    intro w keep w2 calls h
    rw [frame_loop] at h
    by_cases hr : scene.is_running w = true
    · by_cases hp : (poll_events K w).1 = true
      · simp only [hr, hp, if_true] at h
        cases hrec : frame_loop K scene screen f (draw_frame scene screen (poll_events K w).2) with
        | none => simp [hrec] at h
        | some res =>
          obtain ⟨k1, w1, c1⟩ := res
          simp only [hrec, Option.some.injEq, Prod.mk.injEq] at h
          obtain ⟨rfl, rfl, rfl⟩ := h
          obtain ⟨n, hn, hrun, hkeep, hcalls, hcase⟩ := ih _ _ _ _ hrec
          refine ⟨n + 1, by omega, ?_, ?_, ?_, ?_⟩
          · intro j hj
            cases j with
            | zero => simpa using hr
            | succ j => simpa [Function.iterate_succ_apply, next_frame] using hrun j (by omega)
          · intro j hj
            cases j with
            | zero => simpa using hp
            | succ j => simpa [Function.iterate_succ_apply, next_frame] using hkeep j (by omega)
          · simp [frame_cycles, hcalls]
          · simpa [Function.iterate_succ_apply, next_frame] using hcase
      · simp only [hr, hp, if_true, Bool.false_eq_true, if_false, Option.some.injEq,
          Prod.mk.injEq] at h
        obtain ⟨rfl, rfl, rfl⟩ := h
        refine ⟨0, by omega, by simp, by simp, by simp [frame_cycles, loop_exit], Or.inr ?_⟩
        simpa using ⟨hr, Bool.not_eq_true _ ▸ hp⟩
    · simp only [hr, Bool.false_eq_true, if_false, Option.some.injEq, Prod.mk.injEq] at h
      obtain ⟨rfl, rfl, rfl⟩ := h
      refine ⟨0, by omega, by simp, by simp, by simp [frame_cycles, loop_exit], Or.inl ?_⟩
      simpa using hr

/-- More fuel does not change the result of a frame loop that ends. -/
theorem frame_loop_mono {σ : Type} (K : SDLConsts) (scene : Scene σ) (screen : Screen σ)
    (fuel fuel2 : Nat) (w : World σ) (res : Bool × World σ × List Call) (hle : fuel ≤ fuel2)
    (h : frame_loop K scene screen fuel w = some res) :
    frame_loop K scene screen fuel2 w = some res := by
  obtain ⟨keep, w2, calls⟩ := res
  obtain ⟨n, hn, hrun, hkeep, hcalls, hcase⟩ := frame_loop_some K scene screen fuel w _ _ _ h
  rcases hcase with ⟨rfl, hstop, rfl⟩ | ⟨rfl, hlast, hstop, rfl⟩
  · rw [frame_loop_finish K scene screen n fuel2 w hrun hkeep hstop (by omega), hcalls]
    rfl
  · rw [frame_loop_cancel K scene screen n fuel2 w hrun hkeep hlast hstop (by omega), hcalls]
    rfl

/-! ## The loop over the benchmarks -/

theorem Run.after_nil {σ : Type} (r : Run σ) : Run.after [] r = r := rfl

theorem Run.after_after {σ : Type} (a b : List Call) (r : Run σ) :
    Run.after a (Run.after b r) = Run.after (a ++ b) r := by
  simp [Run.after]

theorem Run.map_after_nil {σ : Type} (x : Option (Run σ)) : x.map (Run.after []) = x := by
  cases x <;> rfl

theorem Run.map_after_after {σ : Type} (a b : List Call) (x : Option (Run σ)) :
    (x.map (Run.after b)).map (Run.after a) = x.map (Run.after (a ++ b)) := by
  cases x <;> simp [Run.after_after]

theorem run_benchmarks_nil {σ : Type} (K : SDLConsts) (T : NumberType)
    (screen : Screen σ) (fuel i : Nat)
    (w : World σ) (score : Nat) :
    run_benchmarks K T screen fuel i [] w score = some ⟨w, score, [], .finished⟩ := by
  simp [run_benchmarks]

theorem run_benchmarks_fail {σ : Type} (K : SDLConsts) (T : NumberType)
    (screen : Screen σ) (fuel i : Nat)
    (bench : Benchmark σ) (rest : List (Benchmark σ)) (w : World σ) (score : Nat)
    (hsetup : bench.setup_scene w = none) :
    run_benchmarks K T screen fuel i (bench :: rest) w score =
      some ⟨w, score, [.setup_scene i false], .aborted⟩ := by
  simp [run_benchmarks, hsetup]

theorem run_benchmarks_cancel {σ : Type} (K : SDLConsts) (T : NumberType)
    (screen : Screen σ) (fuel i : Nat)
    (bench : Benchmark σ) (rest : List (Benchmark σ)) (w : World σ) (score : Nat)
    (scene : Scene σ) (w1 w2 : World σ) (calls : List Call)
    (hsetup : bench.setup_scene w = some (scene, w1))
    (hloop : frame_loop K scene screen fuel w1 = some (false, w2, calls)) :
    run_benchmarks K T screen fuel i (bench :: rest) w score =
      some ⟨bench.teardown_scene w2, add_to_score T score (scene.average_fps w2),
        block_calls i (scene.info_string w1) calls (scene.average_fps w2), .cancelled⟩ := by
  simp [run_benchmarks, hsetup, hloop, block_calls]

theorem run_benchmarks_next {σ : Type} (K : SDLConsts) (T : NumberType)
    (screen : Screen σ) (fuel i : Nat)
    (bench : Benchmark σ) (rest : List (Benchmark σ)) (w : World σ) (score : Nat)
    (scene : Scene σ) (w1 w2 : World σ) (calls : List Call)
    (hsetup : bench.setup_scene w = some (scene, w1))
    (hloop : frame_loop K scene screen fuel w1 = some (true, w2, calls)) :
    run_benchmarks K T screen fuel i (bench :: rest) w score =
      (run_benchmarks K T screen fuel (i + 1) rest (bench.teardown_scene w2)
        (add_to_score T score (scene.average_fps w2))).map
        (Run.after (block_calls i (scene.info_string w1) calls (scene.average_fps w2))) := by
  simp only [run_benchmarks, hsetup, hloop, block_calls, if_true]
  cases run_benchmarks K T screen fuel (i + 1) rest (bench.teardown_scene w2)
    (add_to_score T score (scene.average_fps w2)) <;> simp [Run.after]

/-- The three ways in which a run over a non-empty list of benchmarks produces a result. -/
theorem run_benchmarks_cons_inv {σ : Type} (K : SDLConsts) (T : NumberType)
    (screen : Screen σ) (fuel i : Nat)
    (bench : Benchmark σ) (rest : List (Benchmark σ)) (w : World σ) (score : Nat) (r : Run σ)
    (h : run_benchmarks K T screen fuel i (bench :: rest) w score = some r) :
    (bench.setup_scene w = none ∧ r = ⟨w, score, [.setup_scene i false], .aborted⟩) ∨
    (∃ scene w1 w2 calls, bench.setup_scene w = some (scene, w1) ∧
        frame_loop K scene screen fuel w1 = some (false, w2, calls) ∧
        r = ⟨bench.teardown_scene w2, add_to_score T score (scene.average_fps w2),
          block_calls i (scene.info_string w1) calls (scene.average_fps w2), .cancelled⟩) ∨
    (∃ scene w1 w2 calls r1, bench.setup_scene w = some (scene, w1) ∧
        frame_loop K scene screen fuel w1 = some (true, w2, calls) ∧
        run_benchmarks K T screen fuel (i + 1) rest (bench.teardown_scene w2)
          (add_to_score T score (scene.average_fps w2)) = some r1 ∧
        r = Run.after (block_calls i (scene.info_string w1) calls (scene.average_fps w2)) r1) := by
  cases hs : bench.setup_scene w with
  | none =>
    rw [run_benchmarks_fail K T screen fuel i bench rest w score hs] at h
    exact Or.inl ⟨rfl, (Option.some.inj h).symm⟩
  | some p =>
    obtain ⟨scene, w1⟩ := p
    cases hl : frame_loop K scene screen fuel w1 with
    | none => simp [run_benchmarks, hs, hl] at h
    | some q =>
      obtain ⟨keep, w2, calls⟩ := q
      cases keep with
      | false =>
        rw [run_benchmarks_cancel K T screen fuel i bench rest w score scene w1 w2 calls hs hl] at h
        exact Or.inr (Or.inl ⟨scene, w1, w2, calls, rfl, hl, (Option.some.inj h).symm⟩)
      | true =>
        rw [run_benchmarks_next K T screen fuel i bench rest w score scene w1 w2 calls hs hl] at h
        cases hr : run_benchmarks K T screen fuel (i + 1) rest (bench.teardown_scene w2)
          (add_to_score T score (scene.average_fps w2)) with
        | none => simp [hr] at h
        | some r1 =>
          rw [hr] at h
          exact Or.inr (Or.inr ⟨scene, w1, w2, calls, r1, rfl, hl, hr,
            (Option.some.inj h).symm⟩)

/-- More fuel does not change the result of a run that ends. -/
theorem run_benchmarks_mono {σ : Type} (K : SDLConsts) (T : NumberType) (screen : Screen σ)
    (fuel fuel2 : Nat) (hle : fuel ≤ fuel2) :
    ∀ (bs : List (Benchmark σ)) (i : Nat) (w : World σ) (score : Nat) (r : Run σ),
    run_benchmarks K T screen fuel i bs w score = some r →
    run_benchmarks K T screen fuel2 i bs w score = some r := by
  intro bs
  induction bs with
  | nil =>
    intro i w score r h
    rw [run_benchmarks_nil] at h ⊢
    exact h
  | cons bench rest ih =>
    intro i w score r h
    rcases run_benchmarks_cons_inv K T screen fuel i bench rest w score r h with
      ⟨hs, rfl⟩ | ⟨scene, w1, w2, calls, hs, hl, rfl⟩ | ⟨scene, w1, w2, calls, r2, hs, hl, hr, rfl⟩
    · exact run_benchmarks_fail K T screen fuel2 i bench rest w score hs
    · exact run_benchmarks_cancel K T screen fuel2 i bench rest w score scene w1 w2 calls hs
        (frame_loop_mono K scene screen fuel fuel2 w1 _ hle hl)
    · rw [run_benchmarks_next K T screen fuel2 i bench rest w score scene w1 w2 calls hs
        (frame_loop_mono K scene screen fuel fuel2 w1 _ hle hl), ih _ _ _ _ hr]
      rfl

/-- A run over `pre ++ post` whose part over `pre` finishes goes on with `post`. -/
theorem run_benchmarks_append {σ : Type} (K : SDLConsts) (T : NumberType)
    (screen : Screen σ) (fuel : Nat)
    (post : List (Benchmark σ)) :
    ∀ (pre : List (Benchmark σ)) (i : Nat) (w : World σ) (score : Nat) (r1 : Run σ),
    run_benchmarks K T screen fuel i pre w score = some r1 → r1.status = .finished →
    run_benchmarks K T screen fuel i (pre ++ post) w score =
      (run_benchmarks K T screen fuel (i + pre.length) post r1.world r1.score).map
        (Run.after r1.calls) := by
  intro pre
  induction pre with
  | nil =>
    intro i w score r1 h _
    rw [run_benchmarks_nil] at h
    obtain rfl := Option.some.inj h
    simp [Run.map_after_nil]
  | cons bench rest ih =>
    intro i w score r1 h hfin
    rcases run_benchmarks_cons_inv K T screen fuel i bench rest w score r1 h with
      ⟨_, rfl⟩ | ⟨scene, w1, w2, calls, _, _, rfl⟩ | ⟨scene, w1, w2, calls, r2, hs, hl, hr, rfl⟩
    · simp at hfin
    · simp at hfin
    · have hfin2 : r2.status = .finished := by simpa [Run.after] using hfin
      have := ih (i + 1) _ _ r2 hr hfin2
      rw [List.cons_append, run_benchmarks_next K T screen fuel i bench (rest ++ post) w score
        scene w1 w2 calls hs hl, this]
      have hlen : i + 1 + rest.length = i + (bench :: rest).length := by
        simp only [List.length_cons]; omega
      rw [hlen, Run.map_after_after]
      rfl

/-! ## The shape of the call log -/

theorem run_shape {σ : Type} (K : SDLConsts) (T : NumberType) (screen : Screen σ) (fuel : Nat) :
    ∀ (bs : List (Benchmark σ)) (i : Nat) (w : World σ) (s : Nat) (r : Run σ),
    run_benchmarks K T screen fuel i bs w s = some r →
    ∃ done, RunShape T i s bs.length r.status r.calls r.score done := by
  intro bs
  induction bs with
  | nil =>
    intro i w s r h
    rw [run_benchmarks_nil] at h
    obtain rfl := Option.some.inj h
    exact ⟨[], Or.inl ⟨rfl, rfl, rfl, rfl⟩⟩
  | cons bench rest ih =>
    intro i w s r h
    rcases run_benchmarks_cons_inv K T screen fuel i bench rest w s r h with
      ⟨_, rfl⟩ | ⟨scene, w1, w2, calls, _, hl, rfl⟩ | ⟨scene, w1, w2, calls, r2, hs, hl, hr, rfl⟩
    · exact ⟨[], Or.inr (Or.inr ⟨rfl, by simp, by simp [run_calls], rfl⟩)⟩
    · obtain ⟨n, -, -, -, hcalls, -⟩ := frame_loop_some K scene screen fuel w1 _ _ _ hl
      refine ⟨[], Or.inr (Or.inl ⟨rfl, by simp, ⟨scene.info_string w1, n, scene.average_fps w2⟩,
        ?_, rfl⟩)⟩
      simp [run_calls, benchmark_calls, hcalls]
    · obtain ⟨n, -, -, -, hcalls, -⟩ := frame_loop_some K scene screen fuel w1 _ _ _ hl
      obtain ⟨done, hd⟩ := ih (i + 1) _ _ r2 hr
      have hidx : i + 1 + done.length =
          i + (BenchLog.mk (scene.info_string w1) n (scene.average_fps w2) :: done).length := by
        simp only [List.length_cons]; omega
      refine ⟨⟨scene.info_string w1, n, scene.average_fps w2⟩ :: done, ?_⟩
      rcases hd with ⟨h1, h2, h3, h4⟩ | ⟨h1, h2, b, h3, h4⟩ | ⟨h1, h2, h3, h4⟩
      · refine Or.inl ⟨h1, by simp [h2], ?_, ?_⟩
        · simp [Run.after, h3, run_calls, benchmark_calls, hcalls]
        · simp [Run.after, h4, score_after]
      · refine Or.inr (Or.inl ⟨h1, by simp [h2], b, ?_, ?_⟩)
        · rw [← hidx]
          simp [Run.after, h3, run_calls, benchmark_calls, hcalls]
        · simp [Run.after, h4, score_after]
      · refine Or.inr (Or.inr ⟨h1, by simp [h2], ?_, ?_⟩)
        · rw [← hidx]
          simp [Run.after, h3, run_calls, benchmark_calls, hcalls]
        · simp [Run.after, h4, score_after]

/-! ## Counting the calls of a frame loop -/

theorem count_draw_loop (n : Nat) (c : Bool) :
    (frame_cycles n ++ loop_exit c).count Call.scene_draw = n := by
  induction n with
  | zero => cases c <;> simp [frame_cycles, loop_exit, List.count_cons]
  | succ n ih =>
    rw [frame_cycles, List.append_assoc, List.count_append, ih]
    simp [frame_cycle, List.count_cons]
    omega

theorem count_update_loop (n : Nat) (c : Bool) :
    (frame_cycles n ++ loop_exit c).count Call.scene_update = n := by
  induction n with
  | zero => cases c <;> simp [frame_cycles, loop_exit, List.count_cons]
  | succ n ih =>
    rw [frame_cycles, List.append_assoc, List.count_append, ih]
    simp [frame_cycle, List.count_cons]
    omega

/-! ## The claims about one benchmark -/

theorem polls_append (a b : List Call) : polls (a ++ b) = polls a ++ polls b := by
  simp [polls, List.filterMap_append]

theorem polls_frame_cycles (n : Nat) : polls (frame_cycles n) = List.replicate n true := by
  induction n with
  | zero => rfl
  | succ n ih =>
    rw [frame_cycles, polls_append, ih, List.replicate_succ]
    rfl

theorem polls_loop_exit (c : Bool) : polls (loop_exit c) = if c then [false] else [] := by
  cases c <;> rfl

theorem in_loop_frame_cycles (n : Nat) : ∀ c ∈ frame_cycles n, c.in_loop = true := by
  induction n with
  | zero => simp [frame_cycles]
  | succ n ih =>
    intro c hc
    rw [frame_cycles, List.mem_append] at hc
    rcases hc with hc | hc
    · simp only [frame_cycle, List.mem_cons, List.mem_singleton, List.not_mem_nil,
        or_false] at hc
      rcases hc with rfl | rfl | rfl | rfl | rfl | rfl <;> rfl
    · exact ih c hc

theorem in_loop_loop_exit (b : Bool) : ∀ c ∈ loop_exit b, c.in_loop = true := by
  intro c hc
  cases b <;> simp [loop_exit] at hc
  · subst hc; rfl
  · rcases hc with rfl | rfl <;> rfl

theorem in_loop_loop (n : Nat) (b : Bool) :
    ∀ c ∈ frame_cycles n ++ loop_exit b, c.in_loop = true := by
  intro c hc
  rcases List.mem_append.mp hc with h | h
  · exact in_loop_frame_cycles n c h
  · exact in_loop_loop_exit b c h

theorem not_mem_frame_cycles_cancel (n : Nat) :
    Call.should_keep_running false ∉ frame_cycles n := by
  induction n with
  | zero => simp [frame_cycles]
  | succ n ih => simp [frame_cycles, frame_cycle, ih]

theorem count_running_loop (n : Nat) (c : Bool) :
    (frame_cycles n ++ loop_exit c).count (Call.is_running true) = (n + if c then 1 else 0) := by
  induction n with
  | zero => cases c <;> simp [frame_cycles, loop_exit, List.count_cons]
  | succ n ih =>
    rw [frame_cycles, List.append_assoc, List.count_append, ih]
    simp [frame_cycle, List.count_cons]
    omega

/-! ## The short circuit of the loop condition -/

/-- C10: the event source is polled only after `is_running()` returned true: the log of
a frame loop is `n` full cycles followed by one last check of the condition, so it has
as many polls as `is_running() == true` entries. `keep_running` is false after the loop
exactly when the last poll returned false. When the loop ends because `is_running()` is
false, that check polls nothing, `keep_running` is true, the world (with its queue of
pending events) is the one the last frame left, and the run goes on with the
benchmarks that follow; a scene that is not running right after setup gives the log
`[is_running false]`: no poll, no frame, world untouched. -/
theorem poll_is_short_circuited {σ : Type} (K : SDLConsts) (T : NumberType) (screen : Screen σ)
    (bench : Benchmark σ) (rest : List (Benchmark σ)) (i fuel score : Nat) (w : World σ)
    (scene : Scene σ) (w1 : World σ) (keep : Bool) (w2 : World σ) (calls : List Call)
    (hsetup : bench.setup_scene w = some (scene, w1))
    (hloop : frame_loop K scene screen fuel w1 = some (keep, w2, calls)) :
    ∃ n,
      (polls calls).length = calls.count (Call.is_running true) ∧
      (keep = false ↔ (polls calls).getLast? = some false) ∧
      (keep = true ↔ scene.is_running ((next_frame K scene screen)^[n] w1) = false) ∧
      (scene.is_running ((next_frame K scene screen)^[n] w1) = false →
        calls = frame_cycles n ++ [Call.is_running false] ∧
        w2 = (next_frame K scene screen)^[n] w1 ∧
        run_benchmarks K T screen fuel i (bench :: rest) w score =
          (run_benchmarks K T screen fuel (i + 1) rest (bench.teardown_scene w2)
            (add_to_score T score (scene.average_fps w2))).map
            (Run.after (block_calls i (scene.info_string w1) calls (scene.average_fps w2)))) ∧
      (scene.is_running ((next_frame K scene screen)^[n] w1) = true →
        calls = frame_cycles n ++ [Call.is_running true, Call.should_keep_running false] ∧
        w2 = (poll_events K ((next_frame K scene screen)^[n] w1)).2 ∧
        run_benchmarks K T screen fuel i (bench :: rest) w score =
          some ⟨bench.teardown_scene w2, add_to_score T score (scene.average_fps w2),
            block_calls i (scene.info_string w1) calls (scene.average_fps w2), .cancelled⟩) ∧
      (scene.is_running w1 = false →
        n = 0 ∧ keep = true ∧ calls = [Call.is_running false] ∧ w2 = w1 ∧
        polls calls = [] ∧ calls.countP Call.is_frame = 0) := by
  obtain ⟨n, -, hrun, -, hcalls, hcase⟩ := frame_loop_some K scene screen fuel w1 _ _ _ hloop
  refine ⟨n, ?_, ?_, ?_, ?_, ?_, ?_⟩
  · rw [hcalls, count_running_loop, polls_append, polls_frame_cycles, polls_loop_exit]
    cases keep <;> simp
  · rw [hcalls, polls_append, polls_frame_cycles, polls_loop_exit]
    cases keep
    · simp
    · simp only [Bool.true_eq_false, Bool.not_true, Bool.false_eq_true, if_false, List.append_nil,
        false_iff]
      intro h
      exact Bool.noConfusion (List.eq_of_mem_replicate (List.mem_of_getLast?_eq_some h))
  · rcases hcase with ⟨hk, hr, -⟩ | ⟨hk, hr, -⟩ <;> simp [hk, hr]
  · intro hstop
    rcases hcase with ⟨hk, -, hw⟩ | ⟨-, hr, -⟩
    · subst hk
      refine ⟨by simpa [loop_exit] using hcalls, hw, ?_⟩
      exact run_benchmarks_next K T screen fuel i bench rest w score scene w1 w2 calls hsetup hloop
    · rw [hr] at hstop; exact Bool.noConfusion hstop
  · intro hgo
    rcases hcase with ⟨-, hr, -⟩ | ⟨hk, -, -, hw⟩
    · rw [hr] at hgo; exact Bool.noConfusion hgo
    · subst hk
      refine ⟨by simpa [loop_exit] using hcalls, hw, ?_⟩
      exact run_benchmarks_cancel K T screen fuel i bench rest w score scene w1 w2 calls hsetup
        hloop
  · intro h0
    have hn : n = 0 := by
      by_contra hne
      have := hrun 0 (Nat.pos_of_ne_zero hne)
      simp only [Function.iterate_zero, id] at this
      rw [h0] at this
      exact Bool.noConfusion this
    subst hn
    rcases hcase with ⟨hk, -, hw⟩ | ⟨-, hr, -⟩
    · subst hk
      have hc : calls = [Call.is_running false] := by simpa [loop_exit, frame_cycles] using hcalls
      subst hc
      exact ⟨rfl, rfl, rfl, by simpa using hw, rfl, rfl⟩
    · simp only [Function.iterate_zero, id] at hr
      rw [h0] at hr; exact Bool.noConfusion hr

/-- C10, evaluated: a quit request is pending when a scene that is not running is set
up; its loop polls nothing and leaves the request in the queue, and the run goes on
with the next benchmark. -/
theorem poll_is_short_circuited_witness :
    ∃ n,
      (polls [Call.is_running false]).length =
        [Call.is_running false].count (Call.is_running true) ∧
      (true = false ↔ (polls [Call.is_running false]).getLast? = some false) ∧
      (true = true ↔ (stub_scene 0 5).is_running
        ((next_frame sdl12 (stub_scene 0 5) stub_screen)^[n] ⟨[⟨12, 0⟩], 0⟩) = false) ∧
      ((stub_scene 0 5).is_running
          ((next_frame sdl12 (stub_scene 0 5) stub_screen)^[n] ⟨[⟨12, 0⟩], 0⟩) = false →
        [Call.is_running false] = frame_cycles n ++ [Call.is_running false] ∧
        (⟨[⟨12, 0⟩], 0⟩ : StubWorld) =
          (next_frame sdl12 (stub_scene 0 5) stub_screen)^[n] ⟨[⟨12, 0⟩], 0⟩ ∧
        run_benchmarks sdl12 binary64 stub_screen 3 0 [stub_benchmark 0 5, stub_benchmark 2 7]
            ⟨[⟨12, 0⟩], 4⟩ 0 =
          (run_benchmarks sdl12 binary64 stub_screen 3 1 [stub_benchmark 2 7]
            ((stub_benchmark 0 5).teardown_scene ⟨[⟨12, 0⟩], 0⟩)
            (add_to_score binary64 0 ((stub_scene 0 5).average_fps ⟨[⟨12, 0⟩], 0⟩))).map
            (Run.after (block_calls 0 "stub" [Call.is_running false]
              ((stub_scene 0 5).average_fps ⟨[⟨12, 0⟩], 0⟩)))) ∧
      ((stub_scene 0 5).is_running
          ((next_frame sdl12 (stub_scene 0 5) stub_screen)^[n] ⟨[⟨12, 0⟩], 0⟩) = true →
        [Call.is_running false] =
          frame_cycles n ++ [Call.is_running true, Call.should_keep_running false] ∧
        (⟨[⟨12, 0⟩], 0⟩ : StubWorld) = (poll_events sdl12
          ((next_frame sdl12 (stub_scene 0 5) stub_screen)^[n] ⟨[⟨12, 0⟩], 0⟩)).2 ∧
        run_benchmarks sdl12 binary64 stub_screen 3 0 [stub_benchmark 0 5, stub_benchmark 2 7]
            ⟨[⟨12, 0⟩], 4⟩ 0 =
          some ⟨(stub_benchmark 0 5).teardown_scene ⟨[⟨12, 0⟩], 0⟩,
            add_to_score binary64 0 ((stub_scene 0 5).average_fps ⟨[⟨12, 0⟩], 0⟩),
            block_calls 0 "stub" [Call.is_running false]
              ((stub_scene 0 5).average_fps ⟨[⟨12, 0⟩], 0⟩), .cancelled⟩) ∧
      ((stub_scene 0 5).is_running ⟨[⟨12, 0⟩], 0⟩ = false →
        n = 0 ∧ true = true ∧ [Call.is_running false] = [Call.is_running false] ∧
        (⟨[⟨12, 0⟩], 0⟩ : StubWorld) = ⟨[⟨12, 0⟩], 0⟩ ∧
        polls [Call.is_running false] = [] ∧
        [Call.is_running false].countP Call.is_frame = 0) :=
  poll_is_short_circuited sdl12 binary64 stub_screen (stub_benchmark 0 5) [stub_benchmark 2 7] 0 3 0
    ⟨[⟨12, 0⟩], 4⟩ (stub_scene 0 5) ⟨[⟨12, 0⟩], 0⟩ true ⟨[⟨12, 0⟩], 0⟩
    [Call.is_running false] rfl rfl

/-! ## Positions of the benchmarks in the log -/

theorem mem_block_calls (i : Nat) (info : String) (loop : List Call) (fps : FPS) (c : Call) :
    c ∈ block_calls i info loop fps ↔
      c = Call.setup_scene i true ∨ c = Call.info_string info ∨ c ∈ loop ∨
      c = Call.print_fps fps ∨ c = Call.add_score fps ∨ c = Call.teardown_scene i := by
  simp only [block_calls, List.mem_append, List.mem_cons, List.mem_singleton,
    List.not_mem_nil, or_false]
  tauto

theorem mem_benchmark_calls (i : Nat) (cancelled : Bool) (b : BenchLog) (c : Call)
    (hc : c ∈ benchmark_calls i cancelled b) :
    c = Call.setup_scene i true ∨ c = Call.teardown_scene i ∨
      (c.is_setup = false ∧ c.is_teardown = false) := by
  rcases (mem_block_calls i _ _ _ c).mp hc with h | h | h | h | h | h
  · exact Or.inl h
  · subst h; exact Or.inr (Or.inr ⟨rfl, rfl⟩)
  · have := in_loop_loop _ _ c h
    cases c <;> simp [Call.in_loop] at this <;> exact Or.inr (Or.inr ⟨rfl, rfl⟩)
  · subst h; exact Or.inr (Or.inr ⟨rfl, rfl⟩)
  · subst h; exact Or.inr (Or.inr ⟨rfl, rfl⟩)
  · exact Or.inr (Or.inl h)

theorem mem_run_calls (done : List BenchLog) : ∀ (i : Nat) (c : Call), c ∈ run_calls i done →
    (∃ j, i ≤ j ∧ j < i + done.length ∧
      (c = Call.setup_scene j true ∨ c = Call.teardown_scene j)) ∨
    (c.is_setup = false ∧ c.is_teardown = false) := by
  induction done with
  | nil => intro i c hc; simp [run_calls] at hc
  | cons b bs ih =>
    intro i c hc
    rw [run_calls, List.mem_append] at hc
    rcases hc with hc | hc
    · rcases mem_benchmark_calls i false b c hc with h | h | h
      · exact Or.inl ⟨i, le_refl _, by simp, Or.inl h⟩
      · exact Or.inl ⟨i, le_refl _, by simp, Or.inr h⟩
      · exact Or.inr h
    · rcases ih (i + 1) c hc with ⟨j, h1, h2, h3⟩ | h
      · exact Or.inl ⟨j, by omega, by simp only [List.length_cons]; omega, h3⟩
      · exact Or.inr h

theorem count_teardown_block (i : Nat) (info : String) (n : Nat) (c : Bool) (fps : FPS) :
    (block_calls i info (frame_cycles n ++ loop_exit c) fps).count (Call.teardown_scene i)
      = 1 := by
  have h : (frame_cycles n ++ loop_exit c).count (Call.teardown_scene i) = 0 :=
    List.count_eq_zero_of_not_mem (fun hm => by
      have := in_loop_loop n c _ hm
      simp [Call.in_loop] at this)
  simp only [block_calls, List.count_append, h]
  simp [List.count_cons]

/-! ## Cancellation and setup failure -/

/-- C3: let the run have reached a benchmark (the ones before it finished) whose scene
would be running at the first `N` loop checks. If, for some `1 ≤ k < N`, the first
`k - 1` polls of this benchmark return true and the `k`-th returns false, then the frame
loop ends (fuel `k` suffices) after `k - 1 < N` draw/update cycles, the run is
cancelled, `teardown_scene` is called exactly once for this benchmark, and no
`setup_scene` call is made for a later position of the list. -/
theorem cancel_on_frame_k {σ : Type} (K : SDLConsts) (T : NumberType)
    (screen : Screen σ) (fuel : Nat)
    (pre : List (Benchmark σ)) (bench : Benchmark σ) (rest : List (Benchmark σ))
    (w0 : World σ) (r1 : Run σ) (scene : Scene σ) (w1 : World σ) (N k : Nat)
    (hpre : main K T screen fuel pre w0 = some r1) (hfin : r1.status = .finished)
    (hsetup : bench.setup_scene r1.world = some (scene, w1))
    (hN : ∀ j < N, scene.is_running ((next_frame K scene screen)^[j] w1) = true)
    (hk : 1 ≤ k) (hkN : k < N)
    (hbefore : ∀ j < k - 1,
      (should_keep_running K ((next_frame K scene screen)^[j] w1).events).1 = true)
    (hcancel :
      (should_keep_running K ((next_frame K scene screen)^[k - 1] w1).events).1 = false)
    (hfuel : k ≤ fuel) :
    ∃ r loop w2,
      frame_loop K scene screen fuel w1 = some (false, w2, loop) ∧
      polls loop = List.replicate (k - 1) true ++ [false] ∧
      loop.count Call.scene_draw = k - 1 ∧ loop.count Call.scene_update = k - 1 ∧
      k - 1 < N ∧
      main K T screen fuel (pre ++ bench :: rest) w0 = some r ∧
      r.status = .cancelled ∧
      r.calls = r1.calls ++
        block_calls pre.length (scene.info_string w1) loop (scene.average_fps w2) ∧
      r.calls.count (Call.teardown_scene pre.length) = 1 ∧
      (∀ j ok, Call.setup_scene j ok ∈ r.calls → j ≤ pre.length) := by
  have hl := frame_loop_cancel K scene screen (k - 1) fuel w1
    (fun j hj => hN j (by omega)) hbefore (hN (k - 1) (by omega)) hcancel (by omega)
  have hrun := run_benchmarks_append K T screen fuel (bench :: rest) pre 0 w0 0 r1 hpre hfin
  rw [run_benchmarks_cancel K T screen fuel _ bench rest _ _ scene w1 _ _ hsetup hl] at hrun
  obtain ⟨done, hshape⟩ := run_shape K T screen fuel pre 0 w0 0 r1 hpre
  have hcalls1 : done.length = pre.length ∧ r1.calls = run_calls 0 done := by
    rcases hshape with ⟨-, h2, h3, -⟩ | ⟨h1, -⟩ | ⟨h1, -⟩
    · exact ⟨h2, h3⟩
    · rw [hfin] at h1; exact Status.noConfusion h1
    · rw [hfin] at h1; exact Status.noConfusion h1
  refine ⟨_, _, _, hl, ?_, count_draw_loop _ _, count_update_loop _ _, by omega, hrun, rfl,
    ?_, ?_, ?_⟩
  · rw [polls_append, polls_frame_cycles, polls_loop_exit]; rfl
  · simp [Run.after]
  · simp only [Run.after, zero_add, List.count_append, count_teardown_block]
    have : r1.calls.count (Call.teardown_scene pre.length) = 0 :=
      List.count_eq_zero_of_not_mem (fun hm => by
        rw [hcalls1.2] at hm
        rcases mem_run_calls done 0 _ hm with ⟨j, -, h2, h3⟩ | ⟨-, h⟩
        · rcases h3 with h3 | h3
          · exact Call.noConfusion h3
          · injection h3 with h3; omega
        · simp [Call.is_teardown] at h)
    omega
  · intro j ok hm
    simp only [Run.after, zero_add, List.mem_append] at hm
    rcases hm with hm | hm
    · rw [hcalls1.2] at hm
      rcases mem_run_calls done 0 _ hm with ⟨j2, -, h2, h3⟩ | ⟨h, -⟩
      · rcases h3 with h3 | h3
        · injection h3 with h3; omega
        · exact Call.noConfusion h3
      · simp [Call.is_setup] at h
    · rcases (mem_block_calls _ _ _ _ _).mp hm with h | h | h | h | h | h
      · injection h with h; omega
      · exact Call.noConfusion h
      · have := in_loop_loop _ _ _ h
        simp [Call.in_loop] at this
      · exact Call.noConfusion h
      · exact Call.noConfusion h
      · exact Call.noConfusion h

/-- C7: when the run has reached a benchmark (the ones before it finished) and its
`setup_scene()` fails, the run ends there as aborted: the log gains the failed setup and
nothing else (no frame, no frame rate, no later setup), and the score is the one the
earlier benchmarks left. The benchmarks after it are not looked at. -/
theorem setup_failure_aborts {σ : Type} (K : SDLConsts) (T : NumberType)
    (screen : Screen σ) (fuel : Nat)
    (pre : List (Benchmark σ)) (bench : Benchmark σ) (rest : List (Benchmark σ))
    (w0 : World σ) (r1 : Run σ)
    (hpre : main K T screen fuel pre w0 = some r1) (hfin : r1.status = .finished)
    (hfail : bench.setup_scene r1.world = none) :
    main K T screen fuel (pre ++ bench :: rest) w0 =
      some ⟨r1.world, r1.score, r1.calls ++ [Call.setup_scene pre.length false], .aborted⟩ := by
  have hrun := run_benchmarks_append K T screen fuel (bench :: rest) pre 0 w0 0 r1 hpre hfin
  rw [run_benchmarks_fail K T screen fuel _ bench rest _ _ hfail] at hrun
  simpa [Run.after] using hrun

/-- C3, evaluated: Escape is pressed while the second frame of the second of three
benchmarks is presented; the third poll reports it, two frames were drawn, the second
benchmark is torn down once and the third is never set up. -/
theorem cancel_on_frame_k_witness :
    ∃ r, main sdl12 binary64 escape_screen 5
        [stub_benchmark 1 (239 / 4), stub_benchmark 4 (241 / 4), stub_benchmark 1 (61 / 2)]
        ⟨[], 0⟩ = some r ∧
      r.status = .cancelled ∧
      r.calls.count Call.scene_draw = 1 + 2 ∧
      r.calls.count (Call.teardown_scene 1) = 1 ∧
      ∀ j ok, Call.setup_scene j ok ∈ r.calls → j ≤ 1 := by
  obtain ⟨r, loop, w2, -, -, h3, -, -, h6, h7, h8, h9, h10⟩ :=
    cancel_on_frame_k sdl12 binary64 escape_screen 5 [stub_benchmark 1 (239 / 4)]
      (stub_benchmark 4 (241 / 4)) [stub_benchmark 1 (61 / 2)] ⟨[], 0⟩ stub_run_one
      (stub_scene 4 (241 / 4)) ⟨[], 0⟩ 4 3 rfl rfl rfl (by decide) (by decide) (by decide)
      (by decide) (by decide) (by decide)
  refine ⟨r, h6, h7, ?_, h9, h10⟩
  rw [h8, List.count_append, block_calls, List.count_append, List.count_append, h3]
  simp [stub_run_one, block_calls, frame_cycles, frame_cycle, loop_exit, List.count_cons]

/-- C7, evaluated: the second of three benchmarks names a scene that is not registered. -/
theorem setup_failure_aborts_witness :
    main sdl12 binary64 stub_screen 5
        [stub_benchmark 1 (239 / 4), broken_benchmark, stub_benchmark 1 (61 / 2)] ⟨[], 0⟩ =
      some ⟨⟨[], 1⟩, add_to_score binary64 0 (239 / 4),
        block_calls 0 "stub" (frame_cycles 1 ++ loop_exit false) (239 / 4) ++
          [Call.setup_scene 1 false], .aborted⟩ :=
  setup_failure_aborts sdl12 binary64 stub_screen 5 [stub_benchmark 1 (239 / 4)] broken_benchmark
    [stub_benchmark 1 (61 / 2)] ⟨[], 0⟩ stub_run_one rfl rfl rfl

/-! ## The score -/

theorem fps_reports_append (a b : List Call) :
    fps_reports (a ++ b) = fps_reports a ++ fps_reports b := by
  simp [fps_reports, List.filterMap_append]

theorem fps_reports_loop (l : List Call) (h : ∀ c ∈ l, c.in_loop = true) :
    fps_reports l = [] := by
  induction l with
  | nil => rfl
  | cons c cs ih =>
    have hc := h c (List.mem_cons_self _ _)
    have hcs := ih (fun d hd => h d (List.mem_cons_of_mem _ hd))
    cases c <;> simp [Call.in_loop] at hc <;>
      simpa [fps_reports, List.filterMap_cons, Call.reported_fps] using hcs

theorem fps_reports_benchmark (i : Nat) (c : Bool) (b : BenchLog) :
    fps_reports (benchmark_calls i c b) = [b.fps] := by
  simp only [benchmark_calls, block_calls, fps_reports_append,
    fps_reports_loop _ (in_loop_loop b.frames c)]
  rfl

theorem fps_reports_run (done : List BenchLog) :
    ∀ i, fps_reports (run_calls i done) = done.map BenchLog.fps := by
  induction done with
  | nil => intro i; rfl
  | cons b bs ih =>
    intro i
    rw [run_calls, fps_reports_append, fps_reports_benchmark, ih]
    rfl

theorem polls_benchmark (i : Nat) (c : Bool) (b : BenchLog) :
    polls (benchmark_calls i c b) = List.replicate b.frames true ++ if c then [false] else [] := by
  simp only [benchmark_calls, block_calls, polls_append, polls_frame_cycles, polls_loop_exit]
  simp [polls, Call.poll_result]

theorem polls_run (done : List BenchLog) : ∀ i, ∀ b ∈ polls (run_calls i done), b = true := by
  induction done with
  | nil => intro i b hb; simp [run_calls, polls] at hb
  | cons l ls ih =>
    intro i b hb
    rw [run_calls, polls_append, polls_benchmark, List.mem_append] at hb
    rcases hb with hb | hb
    · simp only [Bool.false_eq_true, if_false, List.append_nil] at hb
      exact List.eq_of_mem_replicate hb
    · exact ih (i + 1) b hb

theorem log2_eq (x : FPS) (e : Nat) (h1 : (2 : FPS) ^ e ≤ x) (h2 : x < 2 ^ (e + 1)) :
    Int.log 2 x = e := by
  have hx : 0 < x := lt_of_lt_of_le (by positivity) h1
  apply le_antisymm
  · have : Int.log 2 x < (e : Int) + 1 := by
      rw [← Int.lt_zpow_iff_log_lt (by norm_num) hx]
      have : ((2 : Nat) : FPS) ^ ((e : Int) + 1) = 2 ^ (e + 1) := by
        rw [show ((e : Int) + 1) = ((e + 1 : Nat) : Int) by push_cast; ring, zpow_natCast]
        norm_num
      rw [this]; exact h2
    omega
  · rw [← Int.zpow_le_iff_le_log (by norm_num) hx, zpow_natCast]
    simpa using h1

theorem ulp_eq (p e k : Nat) (x : FPS) (hek : e + k + 1 = p) (h1 : (2 : FPS) ^ e ≤ x)
    (h2 : x < 2 ^ (e + 1)) :
    (2 : FPS) ^ (Int.log 2 x - ((p : Int) - 1)) = (2 ^ k)⁻¹ := by
  rw [log2_eq x e h1 h2, show ((e : Int) - ((p : Int) - 1)) = -(k : Int) by omega, zpow_neg,
    zpow_natCast]

theorem round_fp_zero (p : Nat) : round_fp p 0 = 0 := by
  simp [round_fp]

/-- A value with at most `p` significant bits is left as it is. -/
theorem round_fp_exact (p e k n : Nat) (x : FPS) (hek : e + k + 1 = p)
    (h1 : (2 : FPS) ^ e ≤ x) (h2 : x < 2 ^ (e + 1)) (hx : x * 2 ^ k = n) :
    round_fp p x = x := by
  have hx0 : x ≠ 0 := ne_of_gt (lt_of_lt_of_le (by positivity) h1)
  have hdiv : x / (2 ^ k)⁻¹ = n := by rw [div_inv_eq_mul, hx]
  have hk : (2 : FPS) ^ k ≠ 0 := by positivity
  simp only [round_fp, hx0, if_false, ulp_eq p e k x hek h1 h2, hdiv, Nat.floor_natCast]
  rw [if_pos (by simp), ← hx, mul_assoc, mul_inv_cancel₀ hk, mul_one]

/-- A value more than half a spacing above a value of the format is rounded up. -/
theorem round_fp_up (p e k n : Nat) (x : FPS) (hek : e + k + 1 = p)
    (h1 : (2 : FPS) ^ e ≤ x) (h2 : x < 2 ^ (e + 1))
    (hlo : 2 * (n : FPS) + 1 < 2 * (x * 2 ^ k)) (hhi : x * 2 ^ k < n + 1) :
    round_fp p x = (n + 1) / 2 ^ k := by
  have hx0 : x ≠ 0 := ne_of_gt (lt_of_lt_of_le (by positivity) h1)
  have hdiv : x / (2 ^ k)⁻¹ = x * 2 ^ k := by rw [div_inv_eq_mul]
  have hn : (n : FPS) ≤ x * 2 ^ k := by
    have : 2 * (n : FPS) ≤ 2 * (x * 2 ^ k) := le_of_lt (lt_of_le_of_lt (by simp) hlo)
    exact le_of_mul_le_mul_left this (by norm_num)
  have hfl : ⌊x * (2 : FPS) ^ k⌋₊ = n := (Nat.floor_eq_iff (zero_le _)).mpr ⟨hn, hhi⟩
  simp only [round_fp, hx0, if_false, ulp_eq p e k x hek h1 h2, hdiv, hfl]
  rw [if_neg (not_lt.mpr (le_of_lt hlo)), if_pos hlo, div_eq_mul_inv]

theorem to_unsigned_natCast (n : Nat) (h : n < 2 ^ 32) : to_unsigned (n : FPS) = n := by
  rw [to_unsigned, Nat.floor_natCast, Nat.mod_eq_of_lt h]

/-- When the score is a value of the type and rounding does not change the integer
part of its sum with the frame rate, the score moves on by the integer part of the
frame rate. -/
theorem add_to_score_kept (T : NumberType) (s : Nat) (v : FPS)
    (hs : T.round (s : FPS) = s)
    (hsum : ⌊T.round ((s : FPS) + v)⌋₊ = ⌊(s : FPS) + v⌋₊) :
    add_to_score T s v = (s + ⌊v⌋₊) % 2 ^ 32 := by
  unfold add_to_score to_unsigned
  rw [hs, hsum, add_comm, Nat.floor_add_nat (zero_le _), add_comm]

theorem score_fold_kept (T : NumberType) (vs : List FPS) : ∀ s : Nat,
    sums_keep_integer_part T s vs → s + (vs.map (fun v => ⌊v⌋₊)).sum < 2 ^ 32 →
    vs.foldl (add_to_score T) s = s + (vs.map (fun v => ⌊v⌋₊)).sum := by
  induction vs with
  | nil => intro s _ _; simp
  | cons v vs ih =>
    intro s hkept hfit
    obtain ⟨hs, hsum, hrest⟩ := hkept
    simp only [List.map_cons, List.sum_cons] at hfit ⊢
    have hstep : add_to_score T s v = s + ⌊v⌋₊ := by
      rw [add_to_score_kept T s v hs hsum]; exact Nat.mod_eq_of_lt (by omega)
    rw [List.foldl_cons, hstep, ih (s + ⌊v⌋₊) hrest (by omega)]
    omega

theorem fps_reports_block (i : Nat) (info : String) (loop : List Call) (fps : FPS)
    (h : ∀ c ∈ loop, c.in_loop = true) :
    fps_reports (block_calls i info loop fps) = [fps] := by
  simp only [block_calls, fps_reports_append, fps_reports_loop loop h]
  rfl

/-- A finished run binds one scene per benchmark; the frame rates it prints are what
`average_fps()` of these scenes returns in the worlds their loops ended in, and the
score is the result of adding them in order. -/
theorem run_trail {σ : Type} (K : SDLConsts) (T : NumberType) (screen : Screen σ)
    (fuel : Nat) :
    ∀ (bs : List (Benchmark σ)) (i : Nat) (w : World σ) (s : Nat) (r : Run σ),
    run_benchmarks K T screen fuel i bs w s = some r → r.status = .finished →
    ∃ trail : List (Scene σ × World σ),
      Trail K screen fuel bs w trail ∧
      fps_reports r.calls = trail.map (fun p => p.1.average_fps p.2) ∧
      r.score = (fps_reports r.calls).foldl (add_to_score T) s := by
  intro bs
  induction bs with
  | nil =>
    intro i w s r h _
    rw [run_benchmarks_nil] at h
    obtain rfl := Option.some.inj h
    exact ⟨[], trivial, rfl, rfl⟩
  | cons bench rest ih =>
    intro i w s r h hfin
    rcases run_benchmarks_cons_inv K T screen fuel i bench rest w s r h with
      ⟨_, rfl⟩ | ⟨scene, w1, w2, calls, _, _, rfl⟩ | ⟨scene, w1, w2, calls, r2, hs, hl, hr, rfl⟩
    · simp at hfin
    · simp at hfin
    · obtain ⟨n, -, -, -, hcalls, -⟩ := frame_loop_some K scene screen fuel w1 _ _ _ hl
      have hfin2 : r2.status = .finished := by simpa [Run.after] using hfin
      obtain ⟨trail, htrail, hrep, hscore⟩ := ih (i + 1) _ _ r2 hr hfin2
      have hblock : fps_reports (block_calls i (scene.info_string w1) calls
          (scene.average_fps w2)) = [scene.average_fps w2] :=
        fps_reports_block _ _ _ _ (by rw [hcalls]; exact in_loop_loop n _)
      refine ⟨(scene, w2) :: trail, ⟨w1, calls, hs, hl, htrail⟩, ?_, ?_⟩
      · simp [Run.after, fps_reports_append, hblock, hrep]
      · simp [Run.after, fps_reports_append, hblock, hscore]

/-- C1 as amended: in a run that ended without any poll returning false and without a
failed setup, every benchmark of the list has run; the frame rates printed, one per
benchmark, are what `average_fps()` of the bound scenes returns after their frame
loops; the final score is the result of adding them in order with `score += ...`.
When no such addition, formed in the type of `average_fps()`, is rounded across an
integer, the final score is the sum of the frame rates with their fractional parts
dropped, provided that sum fits in 32 bits. -/
theorem score_is_sum_when_not_rounded_up {σ : Type} (K : SDLConsts) (T : NumberType)
    (screen : Screen σ) (fuel : Nat) (benchmarks : List (Benchmark σ)) (w : World σ)
    (r : Run σ)
    (hrun : main K T screen fuel benchmarks w = some r)
    (hkeep : ∀ b ∈ polls r.calls, b = true)
    (hsetup : r.status ≠ .aborted)
    (hkept : sums_keep_integer_part T 0 (fps_reports r.calls))
    (hfit : ((fps_reports r.calls).map (fun v => ⌊v⌋₊)).sum < 2 ^ 32) :
    r.status = .finished ∧
    (∃ trail : List (Scene σ × World σ),
      Trail K screen fuel benchmarks w trail ∧
      fps_reports r.calls = trail.map (fun p => p.1.average_fps p.2)) ∧
    (fps_reports r.calls).length = benchmarks.length ∧
    r.score = (fps_reports r.calls).foldl (add_to_score T) 0 ∧
    r.score = ((fps_reports r.calls).map (fun v => ⌊v⌋₊)).sum := by
  obtain ⟨done, hshape⟩ := run_shape K T screen fuel benchmarks 0 w 0 r hrun
  rcases hshape with ⟨h1, h2, h3, -⟩ | ⟨-, -, b, h3, -⟩ | ⟨h1, -⟩
  · obtain ⟨trail, htrail, hrep, hscore⟩ :=
      run_trail K T screen fuel benchmarks 0 w 0 r hrun h1
    have hlen : (fps_reports r.calls).length = benchmarks.length := by
      rw [h3, fps_reports_run, List.length_map, h2]
    refine ⟨h1, ⟨trail, htrail, hrep⟩, hlen, hscore, ?_⟩
    rw [hscore, score_fold_kept T _ 0 hkept (by simpa using hfit)]
    simp
  · exfalso
    have := hkeep false (by
      rw [h3, polls_append, polls_benchmark]
      simp)
    exact Bool.noConfusion this
  · exact absurd h1 hsetup

theorem floor_597 : ⌊(4201014027406541 / 70368744177664 : FPS)⌋₊ = 59 := by
  rw [Nat.floor_eq_iff (zero_le _)]
  constructor
  · rw [le_div_iff₀ (by norm_num)]; norm_num
  · rw [div_lt_iff₀ (by norm_num)]; norm_num

theorem floor_602 : ⌊(4236198399495373 / 70368744177664 : FPS)⌋₊ = 60 := by
  rw [Nat.floor_eq_iff (zero_le _)]
  constructor
  · rw [le_div_iff₀ (by norm_num)]; norm_num
  · rw [div_lt_iff₀ (by norm_num)]; norm_num

theorem floor_309 : ⌊(4348788390179635 / 140737488355328 : FPS)⌋₊ = 30 := by
  rw [Nat.floor_eq_iff (zero_le _)]
  constructor
  · rw [le_div_iff₀ (by norm_num)]; norm_num
  · rw [div_lt_iff₀ (by norm_num)]; norm_num

/-- In the spec's example, taken in `double`, the first two additions are exact and
the third is rounded up from 149.899... to the next `double`, which is still below
150. -/
theorem sums_keep_integer_part_example :
    sums_keep_integer_part binary64 0
      [4201014027406541 / 70368744177664, 4236198399495373 / 70368744177664,
       4348788390179635 / 140737488355328] := by
  have h0 : round_fp 53 (4201014027406541 / 70368744177664) = 4201014027406541 / 70368744177664 :=
    round_fp_exact 53 5 47 8402028054813082 _ rfl
      (by rw [← NNRat.coe_le_coe]; push_cast; norm_num)
      (by rw [← NNRat.coe_lt_coe]; push_cast; norm_num)
      (by rw [← NNRat.coe_inj]; push_cast; norm_num)
  have h59 : round_fp 53 59 = 59 :=
    round_fp_exact 53 5 47 8303511812964352 _ rfl
      (by rw [← NNRat.coe_le_coe]; push_cast; norm_num)
      (by rw [← NNRat.coe_lt_coe]; push_cast; norm_num)
      (by rw [← NNRat.coe_inj]; push_cast; norm_num)
  have h1 : round_fp 53 (59 + 4236198399495373 / 70368744177664) =
      59 + 4236198399495373 / 70368744177664 :=
    round_fp_exact 53 6 46 8387954305977549 _ rfl
      (by rw [← NNRat.coe_le_coe]; push_cast; norm_num)
      (by rw [← NNRat.coe_lt_coe]; push_cast; norm_num)
      (by rw [← NNRat.coe_inj]; push_cast; norm_num)
  have h119 : round_fp 53 119 = 119 :=
    round_fp_exact 53 6 46 8373880557142016 _ rfl
      (by rw [← NNRat.coe_le_coe]; push_cast; norm_num)
      (by rw [← NNRat.coe_lt_coe]; push_cast; norm_num)
      (by rw [← NNRat.coe_inj]; push_cast; norm_num)
  have h2 : round_fp 53 (119 + 4348788390179635 / 140737488355328) =
      (5274137376115916 + 1) / 2 ^ 45 :=
    round_fp_up 53 7 45 5274137376115916 _ rfl
      (by rw [← NNRat.coe_le_coe]; push_cast; norm_num)
      (by rw [← NNRat.coe_lt_coe]; push_cast; norm_num)
      (by rw [← NNRat.coe_lt_coe]; push_cast; norm_num)
      (by rw [← NNRat.coe_lt_coe]; push_cast; norm_num)
  have hf2 : ⌊((5274137376115916 + 1) / 2 ^ 45 : FPS)⌋₊ = 149 := by
    rw [Nat.floor_eq_iff (zero_le _)]
    constructor
    · rw [le_div_iff₀ (by positivity)]; norm_num
    · rw [div_lt_iff₀ (by positivity)]; norm_num
  have hf3 : ⌊(119 + 4348788390179635 / 140737488355328 : FPS)⌋₊ = 149 := by
    rw [Nat.floor_eq_iff (zero_le _)]
    constructor
    · rw [← NNRat.coe_le_coe]; push_cast; norm_num
    · rw [← NNRat.coe_lt_coe]; push_cast; norm_num
  refine ⟨by simp [binary64, round_fp_zero], by simp [binary64, h0], ?_⟩
  rw [floor_597]
  refine ⟨by simpa [binary64] using h59, by simp [binary64, h1], ?_⟩
  rw [floor_602]
  refine ⟨by simpa [binary64] using h119, ?_, trivial⟩
  have hcast : (((0 + 59 + 60 : Nat)) : FPS) = 119 := by norm_num
  simp only [binary64]
  rw [hcast, h2, hf2, hf3]

/-- C1 as amended, evaluated on the spec's example: three benchmarks reporting 59.7,
60.2 and 30.9 as `double` values give the score 149. -/
theorem score_is_sum_when_not_rounded_up_witness :
    ∃ r, main sdl12 binary64 stub_screen 3
        [stub_benchmark 2 (4201014027406541 / 70368744177664),
         stub_benchmark 1 (4236198399495373 / 70368744177664),
         stub_benchmark 2 (4348788390179635 / 140737488355328)]
        ⟨[], 0⟩ = some r ∧
      fps_reports r.calls =
        [4201014027406541 / 70368744177664, 4236198399495373 / 70368744177664,
         4348788390179635 / 140737488355328] ∧
      r.status = .finished ∧ (fps_reports r.calls).length = 3 ∧ r.score = 149 := by
  have hr : main sdl12 binary64 stub_screen 3
      [stub_benchmark 2 (4201014027406541 / 70368744177664),
       stub_benchmark 1 (4236198399495373 / 70368744177664),
       stub_benchmark 2 (4348788390179635 / 140737488355328)]
      ⟨[], 0⟩ = some spec_example_run := rfl
  have hrep : fps_reports spec_example_run.calls =
      [4201014027406541 / 70368744177664, 4236198399495373 / 70368744177664,
       4348788390179635 / 140737488355328] := rfl
  have hsum : ((fps_reports spec_example_run.calls).map (fun v => ⌊v⌋₊)).sum = 149 := by
    rw [hrep]; simp [floor_597, floor_602, floor_309]
  obtain ⟨h1, -, h3, -, h5⟩ := score_is_sum_when_not_rounded_up sdl12 binary64 stub_screen 3
    _ ⟨[], 0⟩ spec_example_run hr (by decide) (by decide)
    (by rw [hrep]; exact sums_keep_integer_part_example) (by rw [hsum]; norm_num)
  exact ⟨spec_example_run, hr, hrep, h1, h3, h5.trans hsum⟩

/-- C1 as stated fails: with `double` arithmetic, two benchmarks that report 100 and
60 - 2^-47 run without cancellation; the sum of the truncated frame rates is
100 + 59 = 159, but `score += ...` forms 100 + (60 - 2^-47) in `double`, which rounds
to 160, so the final score is 160. -/
theorem score_rounds_up :
    main sdl12 binary64 stub_screen 2
        [stub_benchmark 1 100, stub_benchmark 1 (8444249301319679 / 140737488355328)]
        ⟨[], 0⟩ = some rounded_run ∧
    (∀ b ∈ polls rounded_run.calls, b = true) ∧
    rounded_run.status = .finished ∧
    fps_reports rounded_run.calls = [100, 8444249301319679 / 140737488355328] ∧
    ((fps_reports rounded_run.calls).map (fun v => ⌊v⌋₊)).sum = 159 ∧
    rounded_run.score = 160 ∧
    rounded_run.score ≠ ((fps_reports rounded_run.calls).map (fun v => ⌊v⌋₊)).sum := by
  have hrep : fps_reports rounded_run.calls = [100, 8444249301319679 / 140737488355328] := rfl
  have hfl1 : ⌊(100 : FPS)⌋₊ = 100 := by
    rw [Nat.floor_eq_iff (zero_le _)]; norm_num
  have hfl2 : ⌊(8444249301319679 / 140737488355328 : FPS)⌋₊ = 59 := by
    rw [Nat.floor_eq_iff (zero_le _)]
    constructor
    · rw [le_div_iff₀ (by norm_num)]; norm_num
    · rw [div_lt_iff₀ (by norm_num)]; norm_num
  have hsum : ((fps_reports rounded_run.calls).map (fun v => ⌊v⌋₊)).sum = 159 := by
    rw [hrep]; simp [hfl1, hfl2]
  have h100 : round_fp 53 100 = 100 :=
    round_fp_exact 53 6 46 7036874417766400 _ rfl
      (by rw [← NNRat.coe_le_coe]; push_cast; norm_num)
      (by rw [← NNRat.coe_lt_coe]; push_cast; norm_num)
      (by rw [← NNRat.coe_inj]; push_cast; norm_num)
  have hup : round_fp 53 (100 + 8444249301319679 / 140737488355328) = 160 := by
    rw [round_fp_up 53 7 45 5629499534213119 _ rfl
      (by rw [← NNRat.coe_le_coe]; push_cast; norm_num)
      (by rw [← NNRat.coe_lt_coe]; push_cast; norm_num)
      (by rw [← NNRat.coe_lt_coe]; push_cast; norm_num)
      (by rw [← NNRat.coe_lt_coe]; push_cast; norm_num)]
    rw [← NNRat.coe_inj]; push_cast; norm_num
  have hs1 : add_to_score binary64 0 100 = 100 := by
    have : to_unsigned ((100 : Nat) : FPS) = 100 := to_unsigned_natCast 100 (by norm_num)
    simpa [add_to_score, binary64, round_fp_zero, h100] using this
  have hs2 : add_to_score binary64 100 (8444249301319679 / 140737488355328) = 160 := by
    have : to_unsigned ((160 : Nat) : FPS) = 160 := to_unsigned_natCast 160 (by norm_num)
    simpa [add_to_score, binary64, h100, hup] using this
  have hscore : rounded_run.score = 160 := by
    show add_to_score binary64 (add_to_score binary64 0 100) _ = 160
    rw [hs1, hs2]
  refine ⟨rfl, by decide, rfl, hrep, hsum, hscore, ?_⟩
  rw [hscore, hsum]
  norm_num

/-! ## The order of the calls -/

theorem not_mem_run_calls_cancel (done : List BenchLog) (i : Nat) :
    Call.should_keep_running false ∉ run_calls i done := by
  intro hm
  have : false ∈ polls (run_calls i done) :=
    List.mem_filterMap.mpr ⟨_, hm, rfl⟩
  exact Bool.noConfusion (polls_run done i false this)

/-- C5: in the log of every run, a poll that returned false is followed by exactly
three entries: the frame rate read for printing, the frame rate read for the score, and
the teardown of the benchmark that was set up last. No clear, draw, update or present
and no setup comes after it, and the run is cancelled. -/
theorem nothing_after_cancellation {σ : Type} (K : SDLConsts) (T : NumberType) (screen : Screen σ)
    (fuel : Nat) (benchmarks : List (Benchmark σ)) (w : World σ) (r : Run σ)
    (pre post : List Call)
    (hrun : main K T screen fuel benchmarks w = some r)
    (hsplit : r.calls = pre ++ Call.should_keep_running false :: post) :
    r.status = .cancelled ∧
    (∃ i v, post = [Call.print_fps v, Call.add_score v, Call.teardown_scene i] ∧
      Call.setup_scene i true ∈ pre ∧
      ∀ j ok, Call.setup_scene j ok ∈ pre → j ≤ i) ∧
    (∀ c ∈ post, c.is_frame = false ∧ c.is_setup = false ∧ c.in_loop = false) := by
  obtain ⟨done, hshape⟩ := run_shape K T screen fuel benchmarks 0 w 0 r hrun
  have hmem : Call.should_keep_running false ∈ r.calls := by rw [hsplit]; simp
  rcases hshape with ⟨-, -, h3, -⟩ | ⟨h1, -, b, h3, -⟩ | ⟨-, -, h3, -⟩
  · rw [h3] at hmem
    exact absurd hmem (not_mem_run_calls_cancel done 0)
  · have hform : r.calls =
        (run_calls 0 done ++ ([Call.setup_scene (0 + done.length) true,
          Call.info_string b.info] ++ frame_cycles b.frames ++ [Call.is_running true])) ++
        Call.should_keep_running false ::
          [Call.print_fps b.fps, Call.add_score b.fps, Call.teardown_scene (0 + done.length)] := by
      rw [h3]; simp [benchmark_calls, block_calls, loop_exit]
    rw [hsplit] at hform
    have hx : Call.should_keep_running false ∉
        run_calls 0 done ++ ([Call.setup_scene (0 + done.length) true,
          Call.info_string b.info] ++ frame_cycles b.frames ++ [Call.is_running true]) := by
      simp only [List.mem_append, not_or]
      refine ⟨not_mem_run_calls_cancel done 0, ⟨?_, not_mem_frame_cycles_cancel _⟩, ?_⟩ <;>
        simp
    have hz : Call.should_keep_running false ∉
        [Call.print_fps b.fps, Call.add_score b.fps,
          Call.teardown_scene (0 + done.length)] := by
      simp
    have hinj := (List.append_cons_inj_of_not_mem hx hz).mp hform.symm
    obtain ⟨hpre, -, hpost⟩ := hinj
    refine ⟨h1, ⟨0 + done.length, b.fps, hpost.symm, ?_, ?_⟩, ?_⟩
    · rw [← hpre]; simp
    · intro j ok hj
      rw [← hpre] at hj
      simp only [List.mem_append, List.mem_cons, List.mem_singleton, List.not_mem_nil,
        or_false] at hj
      rcases hj with hj | ((hj | hj) | hj) | hj
      · rcases mem_run_calls done 0 _ hj with ⟨j2, -, h2, h3⟩ | ⟨h, -⟩
        · rcases h3 with h3 | h3
          · injection h3 with h3; omega
          · exact Call.noConfusion h3
        · simp [Call.is_setup] at h
      · injection hj with hj; omega
      · exact Call.noConfusion hj
      · have := in_loop_frame_cycles _ _ hj
        simp [Call.in_loop] at this
      · exact Call.noConfusion hj
    · intro c hc
      rw [← hpost] at hc
      simp only [List.mem_cons, List.mem_singleton, List.not_mem_nil, or_false] at hc
      rcases hc with rfl | rfl | rfl <;> exact ⟨rfl, rfl, rfl⟩
  · rw [h3] at hmem
    rcases List.mem_append.mp hmem with h | h
    · exact absurd h (not_mem_run_calls_cancel done 0)
    · simp at h

/-- C5, evaluated: Escape is pressed while the second frame of the first of two
benchmarks is presented. -/
theorem nothing_after_cancellation_witness :
    main sdl12 binary64 escape_screen 5 [stub_benchmark 3 (239 / 4), stub_benchmark 1 (61 / 2)]
        ⟨[], 0⟩ =
      some ⟨⟨[], 2⟩, add_to_score binary64 0 (239 / 4),
        ([Call.setup_scene 0 true, Call.info_string "stub"] ++ frame_cycles 2 ++
          [Call.is_running true]) ++ Call.should_keep_running false ::
          [Call.print_fps (239 / 4), Call.add_score (239 / 4), Call.teardown_scene 0],
        .cancelled⟩ ∧
    (Status.cancelled = Status.cancelled ∧
      (∃ i v, [Call.print_fps (239 / 4), Call.add_score (239 / 4), Call.teardown_scene 0] =
          [Call.print_fps v, Call.add_score v, Call.teardown_scene i] ∧
        Call.setup_scene i true ∈ ([Call.setup_scene 0 true, Call.info_string "stub"] ++
          frame_cycles 2 ++ [Call.is_running true]) ∧
        ∀ j ok, Call.setup_scene j ok ∈ ([Call.setup_scene 0 true, Call.info_string "stub"] ++
          frame_cycles 2 ++ [Call.is_running true]) → j ≤ i) ∧
      (∀ c ∈ [Call.print_fps (239 / 4), Call.add_score (239 / 4), Call.teardown_scene 0],
        c.is_frame = false ∧ c.is_setup = false ∧ c.in_loop = false)) :=
  ⟨rfl, nothing_after_cancellation sdl12 binary64 escape_screen 5
    [stub_benchmark 3 (239 / 4), stub_benchmark 1 (61 / 2)] ⟨[], 0⟩
    ⟨⟨[], 2⟩, add_to_score binary64 0 (239 / 4),
        ([Call.setup_scene 0 true, Call.info_string "stub"] ++ frame_cycles 2 ++
          [Call.is_running true]) ++ Call.should_keep_running false ::
          [Call.print_fps (239 / 4), Call.add_score (239 / 4), Call.teardown_scene 0],
        .cancelled⟩
    ([Call.setup_scene 0 true, Call.info_string "stub"] ++ frame_cycles 2 ++
      [Call.is_running true])
    [Call.print_fps (239 / 4), Call.add_score (239 / 4), Call.teardown_scene 0] rfl rfl⟩

/-! ## Setup and teardown -/

theorem brackets_append (a b : List (Nat × List Call)) :
    brackets (a ++ b) = brackets a ++ brackets b := by
  induction a with
  | nil => rfl
  | cons x xs ih => simp [brackets, ih]

theorem benchmark_calls_eq (i : Nat) (c : Bool) (b : BenchLog) :
    benchmark_calls i c b = brackets [(i, inner_calls c b)] := by
  simp [benchmark_calls, block_calls, brackets, inner_calls]

theorem brackets_to_brackets (done : List BenchLog) :
    ∀ i, brackets (to_brackets i done) = run_calls i done := by
  induction done with
  | nil => intro i; rfl
  | cons b bs ih =>
    intro i
    rw [to_brackets, run_calls, ← ih (i + 1), benchmark_calls_eq, ← brackets_append]
    rfl

theorem to_brackets_length (done : List BenchLog) :
    ∀ i, (to_brackets i done).length = done.length := by
  induction done with
  | nil => intro i; rfl
  | cons b bs ih => intro i; simp [to_brackets, ih]

theorem to_brackets_fst (done : List BenchLog) :
    ∀ i, (to_brackets i done).map Prod.fst = List.range' i done.length := by
  induction done with
  | nil => intro i; rfl
  | cons b bs ih => intro i; simp [to_brackets, ih, List.range'_succ]

theorem is_inner_inner_calls (c : Bool) (b : BenchLog) : is_inner (inner_calls c b) := by
  refine ⟨?_, b.info, _, b.fps, rfl, in_loop_loop b.frames c⟩
  intro x hx
  simp only [inner_calls, List.cons_append, List.mem_cons, List.mem_append, List.mem_singleton,
    List.not_mem_nil, or_false] at hx
  rcases hx with rfl | (hx | hx) | rfl | rfl
  · exact ⟨rfl, rfl⟩
  · have := in_loop_frame_cycles _ x hx
    cases x <;> simp [Call.in_loop] at this <;> exact ⟨rfl, rfl⟩
  · have := in_loop_loop_exit _ x hx
    cases x <;> simp [Call.in_loop] at this <;> exact ⟨rfl, rfl⟩
  · exact ⟨rfl, rfl⟩
  · exact ⟨rfl, rfl⟩

theorem is_inner_to_brackets (done : List BenchLog) :
    ∀ i, ∀ b ∈ to_brackets i done, is_inner b.2 := by
  induction done with
  | nil => intro i b hb; simp [to_brackets] at hb
  | cons l ls ih =>
    intro i b hb
    rw [to_brackets, List.mem_cons] at hb
    rcases hb with rfl | hb
    · exact is_inner_inner_calls false l
    · exact ih (i + 1) b hb

theorem countP_brackets (p : Call → Bool) (hs : ∀ i, p (Call.setup_scene i true) = false)
    (ht : ∀ i, p (Call.teardown_scene i) = true)
    (hin : ∀ c, c.is_teardown = false → c.is_setup = false → p c = false)
    (blocks : List (Nat × List Call)) (h : ∀ b ∈ blocks, is_inner b.2) :
    (brackets blocks).countP p = blocks.length := by
  induction blocks with
  | nil => rfl
  | cons b bs ih =>
    have hb := (h b (List.mem_cons_self _ _)).1
    have h0 : b.2.countP p = 0 :=
      List.countP_eq_zero.mpr (fun c hc => by
        simpa using hin c (hb c hc).2 (hb c hc).1)
    have hrec := ih (fun x hx => h x (List.mem_cons_of_mem _ hx))
    simp [brackets, List.countP_append, List.countP_cons, h0, hrec, hs, ht]

theorem countP_brackets_setup (blocks : List (Nat × List Call))
    (h : ∀ b ∈ blocks, is_inner b.2) :
    (brackets blocks).countP Call.is_setup_ok = blocks.length := by
  induction blocks with
  | nil => rfl
  | cons b bs ih =>
    have hb := (h b (List.mem_cons_self _ _)).1
    have h0 : b.2.countP Call.is_setup_ok = 0 :=
      List.countP_eq_zero.mpr (fun c hc => by
        have := (hb c hc).1
        cases c <;> simp [Call.is_setup, Call.is_setup_ok] at this ⊢)
    have hrec := ih (fun x hx => h x (List.mem_cons_of_mem _ hx))
    simp [brackets, List.countP_append, List.countP_cons, h0, hrec, Call.is_setup_ok]

/-- C4: the log of every run that ends is a sequence of brackets, possibly followed by
one failed setup. The bracket of the benchmark at position `i` is its successful
`setup_scene`, then the info string, the calls of its frame loop and the reads of
the frame rate, then its `teardown_scene`; no other setup or teardown lies inside a
bracket, and the next bracket or the end of the log follows directly. So there are
as many teardown calls as successful setup calls. -/
theorem setup_teardown_paired {σ : Type} (K : SDLConsts) (T : NumberType) (screen : Screen σ)
    (fuel : Nat) (benchmarks : List (Benchmark σ)) (w : World σ) (r : Run σ)
    (hrun : main K T screen fuel benchmarks w = some r) :
    ∃ (blocks : List (Nat × List Call)) (tail : List Call),
      r.calls = brackets blocks ++ tail ∧
      blocks.map Prod.fst = List.range blocks.length ∧
      (∀ b ∈ blocks, is_inner b.2) ∧
      ((r.status ≠ .aborted ∧ tail = []) ∨
        (r.status = .aborted ∧ tail = [Call.setup_scene blocks.length false])) ∧
      r.calls.countP Call.is_teardown = blocks.length ∧
      r.calls.countP Call.is_setup_ok = blocks.length := by
  obtain ⟨done, hshape⟩ := run_shape K T screen fuel benchmarks 0 w 0 r hrun
  have hfst := to_brackets_fst done 0
  have hlen := to_brackets_length done 0
  have hin := is_inner_to_brackets done 0
  have hcnt : ∀ blocks : List (Nat × List Call), (∀ b ∈ blocks, is_inner b.2) →
      (brackets blocks).countP Call.is_teardown = blocks.length :=
    countP_brackets Call.is_teardown (fun _ => rfl) (fun _ => rfl) (fun c h _ => h)
  rcases hshape with ⟨h1, -, h3, -⟩ | ⟨h1, -, b, h3, -⟩ | ⟨h1, -, h3, -⟩
  · refine ⟨to_brackets 0 done, [], ?_, ?_, hin, Or.inl ⟨by rw [h1]; decide, rfl⟩, ?_, ?_⟩
    · rw [h3, brackets_to_brackets, List.append_nil]
    · rw [hfst, hlen, List.range_eq_range']
    · rw [h3, ← brackets_to_brackets, hcnt _ hin]
    · rw [h3, ← brackets_to_brackets, countP_brackets_setup _ hin]
  · have hin2 : ∀ x ∈ to_brackets 0 done ++ [(0 + done.length, inner_calls true b)],
        is_inner x.2 := by
      intro x hx
      rcases List.mem_append.mp hx with hx | hx
      · exact hin x hx
      · rw [List.mem_singleton] at hx; subst hx; exact is_inner_inner_calls true b
    have hcalls : r.calls =
        brackets (to_brackets 0 done ++ [(0 + done.length, inner_calls true b)]) := by
      rw [h3, brackets_append, brackets_to_brackets, benchmark_calls_eq]
    refine ⟨to_brackets 0 done ++ [(0 + done.length, inner_calls true b)], [], ?_, ?_, hin2,
      Or.inl ⟨by rw [h1]; decide, rfl⟩, ?_, ?_⟩
    · rw [hcalls, List.append_nil]
    · rw [List.map_append, hfst, List.length_append, hlen, List.length_singleton,
        List.range_succ, List.range_eq_range']
      simp
    · rw [hcalls, hcnt _ hin2]
    · rw [hcalls, countP_brackets_setup _ hin2]
  · refine ⟨to_brackets 0 done, [Call.setup_scene (0 + done.length) false], ?_, ?_, hin,
      Or.inr ⟨h1, by rw [hlen, zero_add]⟩, ?_, ?_⟩
    · rw [h3, brackets_to_brackets]
    · rw [hfst, hlen, List.range_eq_range']
    · rw [h3, ← brackets_to_brackets, List.countP_append, hcnt _ hin]
      simp [Call.is_teardown]
    · rw [h3, ← brackets_to_brackets, List.countP_append, countP_brackets_setup _ hin]
      simp [Call.is_setup_ok]

/-- C4, evaluated: the run of three stub benchmarks. -/
theorem setup_teardown_paired_witness :
    ∃ (blocks : List (Nat × List Call)) (tail : List Call),
      stub_run_three.calls = brackets blocks ++ tail ∧
      blocks.map Prod.fst = List.range blocks.length ∧
      (∀ b ∈ blocks, is_inner b.2) ∧
      ((stub_run_three.status ≠ .aborted ∧ tail = []) ∨
        (stub_run_three.status = .aborted ∧
          tail = [Call.setup_scene blocks.length false])) ∧
      stub_run_three.calls.countP Call.is_teardown = blocks.length ∧
      stub_run_three.calls.countP Call.is_setup_ok = blocks.length :=
  setup_teardown_paired sdl12 binary64 stub_screen 3
    [stub_benchmark 2 (239 / 4), stub_benchmark 1 (241 / 4), stub_benchmark 2 (61 / 2)]
    ⟨[], 0⟩ stub_run_three rfl

/-! ## `list_scenes` -/

theorem list_options_eq (options : StdMap SceneOption) :
    list_options options =
      options.map (fun o => LogEntry.option o.2.name o.2.description o.2.default_value) := by
  induction options with
  | nil => rfl
  | cons o os ih => simp [list_options, ih]

theorem list_scenes_loop_eq {σ : Type} (scenes : StdMap (Scene σ)) :
    list_scenes_loop scenes = (scenes.map (fun e => scene_report e.2)).flatten := by
  induction scenes with
  | nil => rfl
  | cons e es ih => simp [list_scenes_loop, scene_report, list_options_eq, ih]

theorem listed_scenes_loop {σ : Type} (scenes : StdMap (Scene σ)) :
    listed_scenes (list_scenes_loop scenes) = scenes.map (fun e => e.2.name) := by
  induction scenes with
  | nil => rfl
  | cons e es ih =>
    have hopt : listed_scenes (list_options e.2.options) = [] := by
      generalize e.2.options = os
      induction os with
      | nil => rfl
      | cons o os ih2 => simpa [listed_scenes, list_options] using ih2
    have happ : ∀ a b : List LogEntry, listed_scenes (a ++ b) = listed_scenes a ++ listed_scenes b :=
      fun a b => by simp [listed_scenes, List.filterMap_append]
    rw [list_scenes_loop, List.map_cons, ← ih]
    have hcons : ∀ l : List LogEntry,
        listed_scenes (LogEntry.scene e.2.name :: l) = e.2.name :: listed_scenes l :=
      fun l => rfl
    rw [hcons, happ, hopt, List.nil_append]

theorem map_name_eq_map_fst {V : Type} (name : V → String) (m : StdMap V)
    (hkey : ∀ e ∈ m, e.1 = name e.2) : m.map (fun e => name e.2) = m.map Prod.fst := by
  apply List.map_congr_left
  intro e he
  exact (hkey e he).symm

/-- C8: for a registry keyed by scene name whose scenes have option maps keyed by option
name (both iterated in ascending key order, as `std::map` does), `list_scenes` reports,
for each entry of the registry in order, the scene name followed directly by one entry
per declared option with its name, description and default value. The scene names
reported are those of the registry, in strictly ascending order, so each registered
scene appears exactly once; likewise the options of each scene. The function only
reads the registry: its result is the log alone. -/
theorem list_scenes_complete {σ : Type} (scenes : StdMap (Scene σ))
    (hord : scenes.ordered)
    (hkey : ∀ e ∈ scenes, e.1 = e.2.name)
    (hopt_ord : ∀ e ∈ scenes, e.2.options.ordered)
    (hopt_key : ∀ e ∈ scenes, ∀ o ∈ e.2.options, o.1 = o.2.name) :
    list_scenes scenes = (scenes.map (fun e => scene_report e.2)).flatten ∧
    listed_scenes (list_scenes scenes) = scenes.map (fun e => e.2.name) ∧
    (scenes.map (fun e => e.2.name)).Pairwise (fun a b => a < b) ∧
    (scenes.map (fun e => e.2.name)).Nodup ∧
    (∀ e ∈ scenes,
      (e.2.options.map (fun o => o.2.name)).Pairwise (fun a b => a < b) ∧
      (e.2.options.map (fun o => o.2.name)).Nodup) := by
  have hnodup : ∀ l : List String, l.Pairwise (fun a b => a < b) → l.Nodup :=
    fun l h => h.imp (fun hab => ne_of_lt hab)
  have hnames : (scenes.map (fun e => e.2.name)).Pairwise (fun a b => a < b) := by
    rw [map_name_eq_map_fst (fun s : Scene σ => s.name) scenes hkey]
    exact hord
  refine ⟨list_scenes_loop_eq scenes, listed_scenes_loop scenes, hnames, hnodup _ hnames, ?_⟩
  intro e he
  have hopts : (e.2.options.map (fun o => o.2.name)).Pairwise (fun a b => a < b) := by
    rw [map_name_eq_map_fst (fun o : SceneOption => o.name) e.2.options (hopt_key e he)]
    exact hopt_ord e he
  exact ⟨hopts, hnodup _ hopts⟩

/-- C8, evaluated on a registry of two scenes with one option each. -/
theorem list_scenes_complete_witness :
    list_scenes stub_registry = (stub_registry.map (fun e => scene_report e.2)).flatten ∧
    listed_scenes (list_scenes stub_registry) = stub_registry.map (fun e => e.2.name) ∧
    (stub_registry.map (fun e => e.2.name)).Pairwise (fun a b => a < b) ∧
    (stub_registry.map (fun e => e.2.name)).Nodup ∧
    (∀ e ∈ stub_registry,
      (e.2.options.map (fun o => o.2.name)).Pairwise (fun a b => a < b) ∧
      (e.2.options.map (fun o => o.2.name)).Nodup) :=
  list_scenes_complete stub_registry
    (by simp [StdMap.ordered, stub_registry]; decide)
    (by decide)
    (by simp [StdMap.ordered, stub_registry])
    (by decide)

end Glmark2
